import Mathlib

/-!
PBM agent: wire protocol, stream parser and connection client

A shallow embedding of `agent/protocol/message.go`, `agent/protocol/parser.go`
and of `agent/core/client.go`: the handling of received messages and of disconnects,
`Send`, `connect`, `Stop`, and the loops of the worker goroutines.

Conventions of the embedding.

* A byte is a `Fin 256`; a Go `string` or `[]byte` is a `List Byte`.
* `uint32` values are natural numbers, reduced `% 2 ^ 32` where Go converts.
* Go's `int` is taken to be 64 bits wide, so `int(x)` of a `uint32` is `x`.
* `encoding/json`, the clock and the sockets are not part of the repository: the
  JSON functions are the fields of a `Json` record that every definition takes as
  an argument, the clock is an argument of `NewMessage`, and the outcomes of dials,
  socket writes and reads and of the collector are arguments of the function that
  meets them (the fields of a `World` for `connect` and the worker loops).
* Goroutines interleave at the granularity of the steps defined for them; the locks of
  the client are not modelled beyond that.
-/

namespace PBM

/-! ## Bytes and slices -/

abbrev Byte := Fin 256

/-- The conversion `byte(v)` of an unsigned integer: the low eight bits. -/
def byte (v : Nat) : Byte := ⟨v % 256, Nat.mod_lt _ (by decide)⟩

/-- The bytes of a string literal made of ASCII characters. -/
def ascii (s : String) : List Byte := s.toList.map fun c => byte c.toNat

/-- The slice expression `b[lo:hi]`. -/
def slice (b : List Byte) (lo hi : Nat) : List Byte := (b.drop lo).take (hi - lo)

/-- The statement `copy(data[lo:hi], src)`: the first `min (hi - lo) (len src)` bytes of
`src` overwrite `data` from index `lo` on. -/
def copyAt (data : List Byte) (lo hi : Nat) (src : List Byte) : List Byte :=
  let n := min (hi - lo) src.length
  data.take lo ++ src.take n ++ data.drop (lo + n)

/-- The function `binary.BigEndian.PutUint32` as the four bytes it stores. -/
def putUint32 (v : Nat) : List Byte :=
  [byte (v / 2 ^ 24), byte (v / 2 ^ 16), byte (v / 2 ^ 8), byte v]

/-- The function `binary.BigEndian.Uint32` on a four byte slice. -/
def uint32 (b : List Byte) : Nat :=
  (b.getD 0 0).val * 2 ^ 24 + (b.getD 1 0).val * 2 ^ 16 + (b.getD 2 0).val * 2 ^ 8
    + (b.getD 3 0).val

/-! ## message.go -/

abbrev MessageType := List Byte

def MessageTypeAuth : MessageType := ascii "AUTH"
def MessageTypeHeartbeat : MessageType := ascii "HEART"
def MessageTypeSystemInfo : MessageType := ascii "SINFO"
def MessageTypeStaticInfo : MessageType := ascii "STATIC"
def MessageTypeTaskResult : MessageType := ascii "TRSLT"
def MessageTypeConfig : MessageType := ascii "CONFIG"

/-- The six message type constants of message.go. -/
def knownTypes : List MessageType :=
  [MessageTypeAuth, MessageTypeHeartbeat, MessageTypeSystemInfo, MessageTypeStaticInfo,
   MessageTypeTaskResult, MessageTypeConfig]

/-- The struct `MessageHeader`; its field `Type` is named `Type_` here. -/
structure MessageHeader where
  Type_ : MessageType
  Length : Nat
  Timestamp : Nat
deriving DecidableEq, Repr

structure AuthPayload where
  Key : List Byte
  UUID : List Byte
  Alias : List Byte
deriving DecidableEq, Repr

structure HeartbeatPayload where
  UUID : List Byte
deriving DecidableEq, Repr

/-- A `float64`, kept as its bit pattern: the code stores and forwards it only. -/
structure Float64 where
  bits : Nat
deriving DecidableEq, Repr

structure CPUInfo where
  Model : List Byte
  Cores : Int
deriving DecidableEq, Repr

structure StaticSystemInfo where
  UUID : List Byte
  Alias : List Byte
  CPU : CPUInfo
  MemoryTotal : Nat
  DiskTotal : Nat
  SwapTotal : Nat
  IPv4 : List (List Byte)
  IPv6 : List (List Byte)
  UpdateAt : Int
deriving DecidableEq, Repr

structure SystemInfo where
  UUID : List Byte
  NetworkTrafficIn : Nat
  NetworkTrafficOut : Nat
  Uptime : Float64
  CPUUsage : Float64
  MemoryUsed : Nat
  DiskUsed : Nat
  SwapUsed : Nat
  NetworkTCP : Int
  NetworkUDP : Int
deriving DecidableEq, Repr

/-- The anonymous struct that `handleMessage` decodes a CONFIG payload into. -/
structure ConfigPayload where
  SystemInfoInterval : Int
  HeartbeatInterval : Int
deriving DecidableEq, Repr

/-- The values an `interface{}` payload holds in this program: nothing, a pointer to one of
the payload structs, or uninterpreted bytes. -/
inductive Payload where
  | nil
  | auth (p : AuthPayload)
  | heartbeat (p : HeartbeatPayload)
  | systemInfo (p : SystemInfo)
  | staticInfo (p : StaticSystemInfo)
  | config (p : ConfigPayload)
  | raw (b : List Byte)
deriving DecidableEq, Repr

structure Message where
  Header : MessageHeader
  Payload : Payload
deriving DecidableEq, Repr

/-- The functions of `encoding/json` that the program calls.  `Marshal` is `none` when
`json.Marshal` returns an error.  An `Unmarshal…` field gives the value of the zero
initialised variable after `json.Unmarshal(data, &v)`, whose error
`ParseMessage` ignores; `UnmarshalConfig` is `none` when the call returns an error. -/
structure Json where
  Marshal : Payload → Option (List Byte)
  UnmarshalAuth : List Byte → AuthPayload
  UnmarshalHeartbeat : List Byte → HeartbeatPayload
  UnmarshalSystemInfo : List Byte → SystemInfo
  UnmarshalConfig : List Byte → Option ConfigPayload

/-- The constructor `NewMessage` at the clock reading `now` (unix seconds):
`uint32(time.Now().Unix())` keeps the low 32 bits. -/
def NewMessage (msgType : MessageType) (payload : Payload) (now : Int) : Message :=
  { Header := { Type_ := msgType, Length := 0, Timestamp := (now % 2 ^ 32).toNat },
    Payload := payload }

/-- The serialized payload of `Encode`: `payloadBytes, _ := json.Marshal(m.Payload)`, which
is the nil slice when marshalling fails. -/
def Message.payloadBytes (js : Json) (m : Message) : List Byte :=
  (js.Marshal m.Payload).getD []

/-- The method `Message.Encode`: the bytes it returns and the message after the call (the
method stores the length in the header of its receiver). -/
def Message.Encode (js : Json) (m : Message) : List Byte × Message :=
  let payloadBytes := m.payloadBytes js
  let m1 : Message :=
    { m with Header := { m.Header with Length := payloadBytes.length % 2 ^ 32 } }
  let headerSize := 12
  let data0 : List Byte := List.replicate (headerSize + payloadBytes.length) 0
  let data1 := copyAt data0 0 4 m1.Header.Type_
  let data2 := copyAt data1 4 8 (putUint32 m1.Header.Length)
  let data3 := copyAt data2 8 12 (putUint32 m1.Header.Timestamp)
  let data4 := copyAt data3 headerSize data3.length payloadBytes
  (data4, m1)

/-- The method `Message.DecodePayload` into a value of the CONFIG struct: `none` is an
error return. -/
def Message.DecodePayload (js : Json) (m : Message) : Option ConfigPayload :=
  match js.Marshal m.Payload with
  | none => none
  | some payloadBytes => js.UnmarshalConfig payloadBytes

/-! ## parser.go -/

structure MessageParser where
  buffer : List Byte
deriving DecidableEq, Repr

def NewMessageParser : MessageParser := { buffer := [] }

def MessageParser.Append (p : MessageParser) (data : List Byte) : MessageParser :=
  { buffer := p.buffer ++ data }

def MessageParser.HasCompleteMessage (p : MessageParser) : Bool :=
  let headerSize := 12
  if p.buffer.length < headerSize then false
  else
    let length := uint32 (slice p.buffer 4 8)
    decide (p.buffer.length ≥ headerSize + length)

/-- The `switch msgType` statement of `ParseMessage` (parser.go, lines 51 to 64): the value
left in `payload`, which starts as the nil interface. -/
def decodePayload (js : Json) (msgType : MessageType) (payloadBytes : List Byte) : Payload :=
  if msgType = MessageTypeAuth then Payload.auth (js.UnmarshalAuth payloadBytes)
  else if msgType = MessageTypeHeartbeat then
    Payload.heartbeat (js.UnmarshalHeartbeat payloadBytes)
  else if msgType = MessageTypeSystemInfo then
    Payload.systemInfo (js.UnmarshalSystemInfo payloadBytes)
  else Payload.nil

/-- The method `ParseMessage`: the returned message (`none` for Go's nil) and the parser
after the call. -/
def MessageParser.ParseMessage (js : Json) (p : MessageParser) :
    Option Message × MessageParser :=
  if !p.HasCompleteMessage then (none, p)
  else
    let headerSize := 12
    let msgType : MessageType := slice p.buffer 0 4
    let length := uint32 (slice p.buffer 4 8)
    let timestamp := uint32 (slice p.buffer 8 12)
    let header : MessageHeader := { Type_ := msgType, Length := length, Timestamp := timestamp }
    let payloadBytes := slice p.buffer headerSize (headerSize + length)
    let payload := decodePayload js msgType payloadBytes
    (some { Header := header, Payload := payload },
     { buffer := p.buffer.drop (headerSize + length) })

/-! ## config.go -/

structure HubConfig where
  Address : List Byte
  BackupAddresses : List (List Byte)
  Port : Int
  Protocol : List Byte
deriving DecidableEq, Repr

structure AgentConfig where
  Alias : List Byte
  SystemInfoInterval : Int
  StaticInfoInterval : Int
  HeartbeatInterval : Int
  ReconnectInterval : Int
deriving DecidableEq, Repr

structure Config where
  Hub : HubConfig
  AuthKey : List Byte
  Agent : AgentConfig
deriving DecidableEq, Repr

/-! ## client.go -/

/-- A socket handle (`net.Conn`), named by a number. -/
abbrev Conn := Nat

/-- An error value returned by a socket operation. -/
structure NetError where
  code : Nat
deriving DecidableEq, Repr

/-- A `time.Ticker`: its period in nanoseconds and whether it is running. -/
structure Ticker where
  period : Int
  running : Bool
deriving DecidableEq, Repr

/-- The conversion of a 64 bit signed result: the value modulo `2 ^ 64` in
`[-2 ^ 63, 2 ^ 63)`. -/
def int64 (x : Int) : Int := (x + 2 ^ 63) % 2 ^ 64 - 2 ^ 63

/-- The expression `time.Duration(n) * time.Second`. -/
def seconds (n : Int) : Int := int64 (n * 1000000000)

/-- The method `Ticker.Reset(d)` for a positive `d`. -/
def Ticker.Reset (_t : Ticker) (d : Int) : Ticker := { period := d, running := true }

/-- The capacity of the reconnect channel: `make(chan struct{}, 1)` in `NewClient`. -/
def reconnectCap : Nat := 1

/-- The fields of `Client` that the modelled methods read or write.  `reconnect` is the
number of requests buffered in the channel, `stop` says whether the stop channel is
closed, `shutdownOnce` whether the `sync.Once` has fired. -/
structure Client where
  cfg : Config
  conn : Option Conn
  parser : MessageParser
  connected : Bool
  reconnect : Nat
  stop : Bool
  heartbeat : Option Ticker
  registered : Bool
  shutdownOnce : Bool
deriving DecidableEq, Repr

def NewClient (cfg : Config) : Client :=
  { cfg := cfg, conn := none, parser := NewMessageParser, connected := false,
    reconnect := 0, stop := false, heartbeat := none, registered := false,
    shutdownOnce := false }

/-- What a method does to the sockets, in order. -/
inductive Effect where
  | close (k : Conn)
  | write (k : Conn) (data : List Byte)
deriving DecidableEq, Repr

def Client.updateIntervals (c : Client) (_systemInfo heartbeat : Int) : Client :=
  if heartbeat > 0 ∧ heartbeat ≠ c.cfg.Agent.HeartbeatInterval then
    let c1 : Client :=
      { c with cfg := { c.cfg with Agent := { c.cfg.Agent with HeartbeatInterval := heartbeat } } }
    match c1.heartbeat with
    | some t => { c1 with heartbeat := some (t.Reset (seconds heartbeat)) }
    | none => c1
  else c

def Client.handleMessage (js : Json) (c : Client) (msg : Message) : Client :=
  if msg.Header.Type_ = MessageTypeConfig then
    match msg.DecodePayload js with
    | some config => c.updateIntervals config.SystemInfoInterval config.HeartbeatInterval
    | none => c
  else c

/-- The statement `select { case ch <- struct{}{}: default: }` on a buffered channel
holding `queued` values out of `cap`: the send happens only when there is room. -/
def trySend (cap queued : Nat) : Nat := if queued < cap then queued + 1 else queued

/-- The first part of `handleDisconnect`, run under the write lock (lines 313 to 319). -/
def Client.handleDisconnectLocked (c : Client) : Client × List Effect :=
  match c.conn with
  | some k => ({ c with conn := none, connected := false }, [Effect.close k])
  | none => ({ c with connected := false }, [])

/-- The second part of `handleDisconnect`, the non-blocking send (lines 323 to 327). -/
def Client.handleDisconnectSignal (c : Client) : Client :=
  { c with reconnect := trySend reconnectCap c.reconnect }

def Client.handleDisconnect (c : Client) : Client × List Effect :=
  let r := c.handleDisconnectLocked
  (r.1.handleDisconnectSignal, r.2)

/-- The loop `for c.parser.HasCompleteMessage()` of `receiveLoop` (lines 283 to 289), run
for at most `fuel` rounds.  A round removes at least twelve bytes from the buffer, so as
many rounds as the buffer has bytes always reach the end of the loop. -/
def Client.dispatch (js : Json) : Nat → Client → Client
  | 0, c => c
  | fuel + 1, c =>
    if c.parser.HasCompleteMessage then
      let r := c.parser.ParseMessage js
      let c1 : Client := { c with parser := r.2 }
      match r.1 with
      | some msg => Client.dispatch js fuel (c1.handleMessage js msg)
      | none => Client.dispatch js fuel c1
    else c

/-- Lines 281 to 289 of `receiveLoop`: the bytes read from the socket are appended to the
parser and every complete message is parsed and handled. -/
def Client.receive (js : Json) (c : Client) (data : List Byte) : Client :=
  let c1 : Client := { c with parser := c.parser.Append data }
  Client.dispatch js c1.parser.buffer.length c1

/-- The errors `Send` returns: the one made by `fmt.Errorf` when there is no connection,
or the error of the socket write. -/
inductive SendError where
  | notConnected
  | write (e : NetError)
deriving DecidableEq, Repr

/-- What a call of `Send` leaves behind: the returned error (`none` for nil), the client,
the socket operations performed, and the message (whose header `Encode` updates). -/
structure SendOutcome where
  err : Option SendError
  client : Client
  effects : List Effect
  msg : Message
deriving DecidableEq, Repr

/-- The method `Send`.  `write k data` is the error of `conn.Write(data)` on socket `k`,
`none` when the write succeeds.  The `none` branch of the match is the nil handle, which
the test before it excludes. -/
def Client.Send (js : Json) (write : Conn → List Byte → Option NetError) (c : Client)
    (msg : Message) : SendOutcome :=
  if !c.connected || c.conn.isNone then
    { err := some SendError.notConnected, client := c, effects := [], msg := msg }
  else
    match c.conn with
    | none => { err := some SendError.notConnected, client := c, effects := [], msg := msg }
    | some k =>
      let e := msg.Encode js
      match write k e.1 with
      | some err =>
        { err := some (SendError.write err), client := c, effects := [Effect.write k e.1],
          msg := e.2 }
      | none => { err := none, client := c, effects := [Effect.write k e.1], msg := e.2 }

/-! ## Concurrent calls of handleDisconnect

Each call runs its locked part atomically and later its non-blocking send; calls
interleave at that boundary. -/

/-- Where a call of `handleDisconnect` stands: before the lock, between the lock and the
send, or returned. -/
inductive Pc where
  | start
  | unlocked
  | done
deriving DecidableEq, Repr

/-- The position a call reaches by taking one step. -/
def Pc.next : Pc → Pc
  | Pc.start => Pc.unlocked
  | Pc.unlocked => Pc.done
  | Pc.done => Pc.done

structure Sys where
  client : Client
  pcs : List Pc
deriving DecidableEq, Repr

/-- The state in which `n` calls of `handleDisconnect` are about to run on client `c`. -/
def Sys.init (c : Client) (n : Nat) : Sys := { client := c, pcs := List.replicate n Pc.start }

/-- One step of call number `i`; a call that has returned, or a number that names no
call, leaves the state as it is. -/
def Sys.step (s : Sys) (i : Nat) : Sys :=
  match s.pcs[i]? with
  | some Pc.start =>
    { client := s.client.handleDisconnectLocked.1, pcs := s.pcs.set i Pc.unlocked }
  | some Pc.unlocked =>
    { client := s.client.handleDisconnectSignal, pcs := s.pcs.set i Pc.done }
  | _ => s

/-- The state after the calls have taken steps in the order `sched`. -/
def Sys.run (s : Sys) (sched : List Nat) : Sys := sched.foldl Sys.step s

/-- What the interleaved calls maintain: the queue never exceeds its capacity, and once
some call has returned it holds one request. -/
def Sys.Inv (s : Sys) : Prop :=
  s.client.reconnect ≤ reconnectCap ∧ (Pc.done ∈ s.pcs → s.client.reconnect = 1)

/-! ## connect and Stop

The answers of the outside world during one call are the fields of a `World`. -/

/-- The outside world as one call sees it.  `now i` is the clock reading when the `i`-th
message of the call is built, `uuid` the value of `GetAgentUUID()`, `dial i network addr
port` the socket returned by `net.DialTimeout` for candidate number `i` (`none` when it
returns an error), `write k data` the error of `conn.Write(data)` on socket `k`,
`staticInfo` and `dynamicInfo` the values returned by the collector (`none` when it
returns an error). -/
structure World where
  now : Nat → Int
  uuid : List Byte
  dial : Nat → List Byte → List Byte → Int → Option Conn
  write : Conn → List Byte → Option NetError
  staticInfo : Option StaticSystemInfo
  dynamicInfo : Option SystemInfo

/-- What a method of the client does to the outside, in order: socket operations, dials,
goroutines started, sleeps, and the steps of the teardown. -/
inductive Event where
  | sock (e : Effect)
  | dial (network addr : List Byte) (port : Int)
  | goReceiveLoop
  | goReporter
  | sleep (secs : Int)
  | closeStop
  | stopTicker
  | waitWorkers
deriving DecidableEq, Repr

/-- The network name `connect` chooses from `cfg.Hub.Protocol` (lines 120 to 125). -/
def network (protocol : List Byte) : List Byte :=
  if protocol = ascii "ipv6" then ascii "tcp6"
  else if protocol = ascii "ipv4" then ascii "tcp4"
  else ascii "tcp"

/-- The slice `addresses` of `connect`: the primary address, then the backups. -/
def Client.addresses (c : Client) : List (List Byte) :=
  [c.cfg.Hub.Address] ++ c.cfg.Hub.BackupAddresses

/-- The bytes of the AUTH message that `connect` writes for candidate number `i`. -/
def Client.authData (js : Json) (w : World) (c : Client) (i : Nat) : List Byte :=
  ((NewMessage MessageTypeAuth
      (Payload.auth { Key := c.cfg.AuthKey, UUID := w.uuid, Alias := c.cfg.Agent.Alias })
      (w.now i)).Encode js).1

/-- What a call of `connect` leaves behind: the client, the events in order, and whether
it returned from inside the loop, after starting the receive loop and the reporter. -/
structure ConnectOutcome where
  client : Client
  events : List Event
  started : Bool
deriving DecidableEq, Repr

/-- The loop `for _, addr := range addresses` of `connect` (lines 115 to 190), from
candidate number `i` on. -/
def Client.connectLoop (js : Json) (w : World) : Nat → List (List Byte) → Client → ConnectOutcome
  | _, [], c => { client := c, events := [], started := false }
  | i, addr :: rest, c =>
    let d := Event.dial (network c.cfg.Hub.Protocol) addr c.cfg.Hub.Port
    match w.dial i (network c.cfg.Hub.Protocol) addr c.cfg.Hub.Port with
    | none =>
      let r := Client.connectLoop js w (i + 1) rest c
      { r with events := d :: r.events }
    | some conn =>
      let c1 : Client := { c with conn := some conn, connected := true }
      let data := c1.authData js w i
      match w.write conn data with
      | some _ =>
        let c2 : Client := { c1 with conn := none, connected := false }
        let r := Client.connectLoop js w (i + 1) rest c2
        { r with events :=
            d :: Event.sock (Effect.write conn data) :: Event.sock (Effect.close conn)
              :: r.events }
      | none =>
        let static : List Event :=
          match w.staticInfo with
          | some info =>
            [Event.sock (Effect.write conn
              ((NewMessage MessageTypeStaticInfo (Payload.staticInfo info)
                (w.now (i + 1))).Encode js).1)]
          | none => []
        { client := c1,
          events := [d, Event.sock (Effect.write conn data), Event.goReceiveLoop] ++ static
            ++ [Event.goReporter],
          started := true }

/-- The method `connect`, run under the write lock. -/
def Client.connect (js : Json) (w : World) (c : Client) : ConnectOutcome :=
  if c.connected then { client := c, events := [], started := false }
  else
    let r := c.connectLoop js w 0 c.addresses
    if r.started then r
    else
      { client := { r.client with reconnect := trySend reconnectCap r.client.reconnect },
        events := r.events ++ [Event.sleep c.cfg.Agent.ReconnectInterval],
        started := false }

/-- The addresses dialled in a list of events, in order. -/
def dialled : List Event → List (List Byte)
  | [] => []
  | Event.dial _ addr _ :: rest => addr :: dialled rest
  | _ :: rest => dialled rest

/-- The socket that candidate number `i`, at address `addr`, yields: the one returned by
the dial when the dial and the write of the AUTH message both succeed. -/
def Client.candidate (js : Json) (w : World) (c : Client) (i : Nat) (addr : List Byte) :
    Option Conn :=
  match w.dial i (network c.cfg.Hub.Protocol) addr c.cfg.Hub.Port with
  | none => none
  | some conn =>
    match w.write conn (c.authData js w i) with
    | some _ => none
    | none => some conn

/-- The statement `close(c.stop)` of `Stop` (line 66). -/
def Client.stopClose (c : Client) : Client × List Event :=
  ({ c with stop := true }, [Event.closeStop])

/-- The locked part of `Stop` (lines 68 to 74). -/
def Client.stopLocked (c : Client) : Client × List Event :=
  match c.conn with
  | some k => ({ c with conn := none, connected := false }, [Event.sock (Effect.close k)])
  | none => ({ c with connected := false }, [])

/-- The statement `if c.heartbeat != nil { c.heartbeat.Stop() }` of `Stop` (lines 76 to 78). -/
def Client.stopHeartbeat (c : Client) : Client × List Event :=
  match c.heartbeat with
  | some t => ({ c with heartbeat := some { t with running := false } }, [Event.stopTicker])
  | none => (c, [])

/-- The statement `c.stopWg.Wait()` of `Stop` (line 81). -/
def Client.stopWait (c : Client) : Client × List Event := (c, [Event.waitWorkers])

/-- The function that `Stop` hands to `shutdownOnce.Do`: the teardown, statement by
statement. -/
def Client.teardown (c : Client) : Client × List Event :=
  let r1 := c.stopClose
  let r2 := r1.1.stopLocked
  let r3 := r2.1.stopHeartbeat
  let r4 := r3.1.stopWait
  (r4.1, r1.2 ++ r2.2 ++ r3.2 ++ r4.2)

/-- The method `Stop` when no other call of it is running: `sync.Once` runs the teardown
on the first call and marks itself done when the teardown returns. -/
def Client.Stop (c : Client) : Client × List Event :=
  if c.shutdownOnce then (c, [])
  else
    let r := c.teardown
    ({ r.1 with shutdownOnce := true }, r.2)

/-! ## Concurrent calls of Stop

Every call runs `shutdownOnce.Do`.  The first call to arrive takes the lock of the
`sync.Once` and runs the teardown statement by statement; a call that arrives while the
lock is held waits; when the teardown has returned the `Once` is marked done and the lock
released, and a call that finds the `Once` done returns at once. -/

/-- Where a call of `Stop` stands: about to enter `shutdownOnce.Do`, before one of the four
statements of the teardown, after the teardown and before the `Once` is marked done, or
returned. -/
inductive StopPc where
  | entry
  | closeStop
  | locked
  | heartbeat
  | wait
  | finish
  | returned
deriving DecidableEq, Repr

/-- The calls that are inside the teardown. -/
def StopPc.owner : StopPc → Bool
  | StopPc.entry => false
  | StopPc.returned => false
  | _ => true

/-- The client, whether the lock of the `Once` is held, the events so far, and the
position of every call. -/
structure StopSys where
  client : Client
  busy : Bool
  log : List Event
  pcs : List StopPc
deriving DecidableEq, Repr

def StopSys.init (c : Client) (n : Nat) : StopSys :=
  { client := c, busy := false, log := [], pcs := List.replicate n StopPc.entry }

/-- Call number `i` has run one statement of the teardown with result `r` and moves to
position `pc`. -/
def StopSys.advance (s : StopSys) (i : Nat) (r : Client × List Event) (pc : StopPc) : StopSys :=
  { s with client := r.1, log := s.log ++ r.2, pcs := s.pcs.set i pc }

/-- One step of call number `i`.  A call that waits for the lock, a call that has returned
and a number that names no call leave the state as it is. -/
def StopSys.step (s : StopSys) (i : Nat) : StopSys :=
  match s.pcs[i]? with
  | some StopPc.entry =>
    if s.client.shutdownOnce then { s with pcs := s.pcs.set i StopPc.returned }
    else if s.busy then s
    else { s with busy := true, pcs := s.pcs.set i StopPc.closeStop }
  | some StopPc.closeStop => s.advance i s.client.stopClose StopPc.locked
  | some StopPc.locked => s.advance i s.client.stopLocked StopPc.heartbeat
  | some StopPc.heartbeat => s.advance i s.client.stopHeartbeat StopPc.wait
  | some StopPc.wait => s.advance i s.client.stopWait StopPc.finish
  | some StopPc.finish =>
    { s with client := { s.client with shutdownOnce := true }, busy := false,
             pcs := s.pcs.set i StopPc.returned }
  | _ => s

def StopSys.run (s : StopSys) (sched : List Nat) : StopSys := sched.foldl StopSys.step s

/-- The client and the events when the call that runs the teardown on client `c` stands at
a position. -/
def stopStateAt (c : Client) : StopPc → Client × List Event
  | StopPc.entry => (c, [])
  | StopPc.closeStop => (c, [])
  | StopPc.locked => (c.stopClose.1, c.stopClose.2)
  | StopPc.heartbeat =>
    (c.stopClose.1.stopLocked.1, c.stopClose.2 ++ c.stopClose.1.stopLocked.2)
  | StopPc.wait =>
    (c.stopClose.1.stopLocked.1.stopHeartbeat.1,
     c.stopClose.2 ++ c.stopClose.1.stopLocked.2 ++ c.stopClose.1.stopLocked.1.stopHeartbeat.2)
  | StopPc.finish => c.teardown
  | StopPc.returned => ({ c.teardown.1 with shutdownOnce := true }, c.teardown.2)

/-- What the interleaved calls of `Stop` on a client `c` maintain. -/
structure StopSys.Inv (c : Client) (s : StopSys) : Prop where
  owner : ∀ (i : Nat) (ph : StopPc), s.pcs[i]? = some ph → ph.owner = true →
    s.busy = true ∧ s.client.shutdownOnce = false ∧ (s.client, s.log) = stopStateAt c ph
      ∧ ∀ (j : Nat) (q : StopPc), s.pcs[j]? = some q → q.owner = true → j = i
  idle : s.busy = false → s.client.shutdownOnce = false → s.client = c ∧ s.log = []
  returned : ∀ i : Nat, s.pcs[i]? = some StopPc.returned → s.client.shutdownOnce = true
  done : s.client.shutdownOnce = true →
    s.busy = false ∧ (s.client, s.log) = stopStateAt c StopPc.returned
  held : s.busy = true → ∃ (i : Nat) (ph : StopPc), s.pcs[i]? = some ph ∧ ph.owner = true

/-! ## The workers

The goroutines of the client take steps one at a time.  A step is one round of a
worker's loop, one call of `connect` or `Send`, the call of `Start`, or one step of a call
of `Stop`; a round that holds the lock runs without interruption.  A `select` whose cases
are ready takes any one of them: the language chooses among the ready cases at random. -/

/-- One round of the loop of `heartbeatManager` after the ticker has fired (lines 348 to
367): the client and the socket operations. -/
def Client.heartbeatTick (js : Json) (w : World) (c : Client) : Client × List Effect :=
  if !c.connected || c.conn.isNone then (c, [])
  else
    match c.conn with
    | none => (c, [])
    | some k =>
      let data := ((NewMessage MessageTypeHeartbeat (Payload.heartbeat { UUID := w.uuid })
        (w.now 0)).Encode js).1
      match w.write k data with
      | some _ => (c.handleDisconnect.1, Effect.write k data :: c.handleDisconnect.2)
      | none => (c, [Effect.write k data])

/-- One round of the loop of `systemInfoReporter` after the ticker has fired (lines 221 to
242): the client and the socket operations. -/
def Client.reporterTick (js : Json) (w : World) (c : Client) : Client × List Effect :=
  if !c.connected || c.conn.isNone then (c, [])
  else
    match c.conn, w.dynamicInfo with
    | some k, some info =>
      let data := ((NewMessage MessageTypeSystemInfo (Payload.systemInfo info)
        (w.now 0)).Encode js).1
      match w.write k data with
      | some _ => (c.handleDisconnect.1, Effect.write k data :: c.handleDisconnect.2)
      | none => (c, [Effect.write k data])
    | _, _ => (c, [])

/-- One round of the loop of `receiveLoop` (lines 259 to 291).  `read` holds the bytes of
`conn.Read`, `none` when it returns an error.  The result holds the client, the socket
operations, and whether the goroutine returns. -/
def Client.receiveRound (js : Json) (c : Client) (read : Option (List Byte)) :
    Client × List Effect × Bool :=
  if c.stop then (c, [], true)
  else if !c.connected || c.conn.isNone then (c, [], true)
  else
    match read with
    | none => (c.handleDisconnect.1, c.handleDisconnect.2, true)
    | some data => (c.receive js data, [], false)

/-- The client and its goroutines: whether `connectionManager` and `heartbeatManager` run,
how many `receiveLoop` and `systemInfoReporter` goroutines run, the lock of the `Once` and
the positions of the calls of `Stop`, and the events so far. -/
structure Node where
  client : Client
  manager : Bool
  heartbeats : Bool
  receivers : Nat
  reporters : Nat
  busy : Bool
  stops : List StopPc
  log : List Event
deriving DecidableEq, Repr

/-- A new client on which `n` calls of `Stop` will be made. -/
def Node.init (c : Client) (n : Nat) : Node :=
  { client := c, manager := false, heartbeats := false, receivers := 0, reporters := 0,
    busy := false, stops := List.replicate n StopPc.entry, log := [] }

/-- The steps.  `managerReconnect` is the round of `connectionManager` in which the
`select` takes `<-c.reconnect` and `connect` runs; `managerStop`, `heartbeatStop` and
`reporterStop` are the rounds in which it takes `<-c.stop`. -/
inductive Label where
  | start
  | managerReconnect (w : World)
  | managerStop
  | heartbeatTick (w : World)
  | heartbeatStop
  | reporterTick (w : World)
  | reporterStop
  | receiverRound (read : Option (List Byte))
  | send (w : World) (msg : Message)
  | stop (i : Nat)

/-- Whether a worker goroutine is running: `stopWg.Wait()` returns when none is. -/
def Node.working (s : Node) : Bool :=
  s.manager || s.heartbeats || decide (0 < s.receivers) || decide (0 < s.reporters)

/-- The state after a step, `none` when the step cannot be taken in the state.  The steps
that start a goroutine which calls `time.NewTicker` (`Start` for `heartbeatManager`, a
successful `connect` for `systemInfoReporter`) are `none` as well when the period is not
positive: `time.NewTicker` panics then, and the steps do not follow the recovery from
that panic. -/
def Node.step (js : Json) (s : Node) : Label → Option Node
  | Label.start =>
    if s.manager || s.heartbeats || decide (reconnectCap ≤ s.client.reconnect)
        || decide (seconds s.client.cfg.Agent.HeartbeatInterval ≤ 0) then none
    else
      some { s with
        manager := true, heartbeats := true,
        client := { s.client with
          reconnect := s.client.reconnect + 1,
          heartbeat := some { period := seconds s.client.cfg.Agent.HeartbeatInterval,
                              running := true } } }
  | Label.managerReconnect w =>
    if s.manager && decide (0 < s.client.reconnect) then
      let c1 : Client := { s.client with reconnect := s.client.reconnect - 1 }
      let r := c1.connect js w
      if r.started && decide (seconds s.client.cfg.Agent.SystemInfoInterval ≤ 0) then none
      else
        some { s with
          client := r.client, log := s.log ++ r.events,
          receivers := if r.started then s.receivers + 1 else s.receivers,
          reporters := if r.started then s.reporters + 1 else s.reporters }
    else none
  | Label.managerStop =>
    if s.manager && s.client.stop then some { s with manager := false } else none
  | Label.heartbeatTick w =>
    if s.heartbeats then
      let r := s.client.heartbeatTick js w
      some { s with client := r.1, log := s.log ++ r.2.map Event.sock }
    else none
  | Label.heartbeatStop =>
    if s.heartbeats && s.client.stop then
      some { s with heartbeats := false, client := s.client.stopHeartbeat.1 }
    else none
  | Label.reporterTick w =>
    if 0 < s.reporters then
      let r := s.client.reporterTick js w
      some { s with client := r.1, log := s.log ++ r.2.map Event.sock }
    else none
  | Label.reporterStop =>
    if decide (0 < s.reporters) && s.client.stop then
      some { s with reporters := s.reporters - 1 }
    else none
  | Label.receiverRound read =>
    if 0 < s.receivers then
      let r := s.client.receiveRound js read
      some { s with
        client := r.1, log := s.log ++ r.2.1.map Event.sock,
        receivers := if r.2.2 then s.receivers - 1 else s.receivers }
    else none
  | Label.send w msg =>
    let r := s.client.Send js w.write msg
    some { s with client := r.client, log := s.log ++ r.effects.map Event.sock }
  | Label.stop i =>
    if decide (s.stops[i]? = some StopPc.wait) && s.working then none
    else
      let t := StopSys.step { client := s.client, busy := s.busy, log := s.log, pcs := s.stops } i
      some { s with client := t.client, busy := t.busy, log := t.log, stops := t.pcs }

/-- The state after the steps of a list, `none` when one of them cannot be taken. -/
def Node.run (js : Json) : List Label → Node → Option Node
  | [], s => some s
  | l :: rest, s =>
    match s.step js l with
    | some s1 => Node.run js rest s1
    | none => none

/-- The frames written to sockets after the stop signal was closed, in order. -/
def framesAfterStop : List Event → List (Conn × List Byte)
  | [] => []
  | Event.closeStop :: rest =>
    rest.filterMap fun e =>
      match e with
      | Event.sock (Effect.write k data) => some (k, data)
      | _ => none
  | _ :: rest => framesAfterStop rest

/-- The dials made after the stop signal was closed, in order. -/
def dialsAfterStop : List Event → List (List Byte)
  | [] => []
  | Event.closeStop :: rest => dialled rest
  | _ :: rest => dialsAfterStop rest

/-- A world in which every dial returns socket 7 and every write succeeds. -/
def goodWorld : World :=
  { now := fun _ => 1700000000
    uuid := ascii "u1"
    dial := fun _ _ _ _ => some 7
    write := fun _ _ => none
    staticInfo := none
    dynamicInfo := none }

/-- The state between two disconnects: connected to socket 7, one receive loop, `m`
reporters, and a positive report period. -/
def Node.Connected (m : Nat) (s : Node) : Prop :=
  s.manager = true ∧ s.receivers = 1 ∧ s.reporters = m ∧ s.client.connected = true
    ∧ s.client.conn = some 7 ∧ s.client.reconnect = 0 ∧ s.client.stop = false
    ∧ 0 < seconds s.client.cfg.Agent.SystemInfoInterval

/-- The steps of `k` disconnects, each a failed read in the receive loop followed by a
reconnect. -/
def reconnectCycles (w : World) : Nat → List Label
  | 0 => []
  | k + 1 => Label.receiverRound none :: Label.managerReconnect w :: reconnectCycles w k

/-- The operations on the connection state that run to their end under the lock. -/
inductive Op where
  | connect (w : World)
  | handleDisconnect
  | stop

def Client.apply (js : Json) (c : Client) : Op → Client
  | Op.connect w => (c.connect js w).client
  | Op.handleDisconnect => c.handleDisconnect.1
  | Op.stop => c.Stop.1

/-- The connected flag agrees with the connection handle. -/
def Client.Consistent (c : Client) : Prop := c.connected = true ↔ c.conn ≠ none

/-! ## A small JSON library for the examples

The theorems below hold for every `Json`.  The record `sampleJson` is used to
evaluate the definitions on concrete inputs.  On the payloads it serialises, with
strings of letters and digits and intervals that are natural numbers, its output is
that of `encoding/json`; it reports an error for the other payloads, and its decoders
read this output only and leave the zero value otherwise. -/

/-- The rest of `b` after the literal `lit`, when `b` starts with it. -/
def dropLit : List Byte → List Byte → Option (List Byte)
  | [], b => some b
  | _ :: _, [] => none
  | x :: xs, y :: ys => if x = y then dropLit xs ys else none

/-- The bytes before the next double quote, and the bytes from it on. -/
def untilQuote (b : List Byte) : List Byte × List Byte := b.span fun x => x ≠ 34

/-- The decimal digits at the start of `b` as a number, and the bytes after them. -/
def readNat (b : List Byte) : Nat × List Byte :=
  let d := b.span fun x => decide (48 ≤ x.val ∧ x.val ≤ 57)
  (d.1.foldl (fun acc x => 10 * acc + (x.val - 48)) 0, d.2)

def sampleMarshal : Payload → Option (List Byte)
  | Payload.nil => some (ascii "null")
  | Payload.heartbeat p => some (ascii "\x7b\"uuid\":\"" ++ p.UUID ++ ascii "\"\x7d")
  | Payload.auth p =>
    some (ascii "\x7b\"key\":\"" ++ p.Key ++ ascii "\",\"uuid\":\"" ++ p.UUID
      ++ ascii "\",\"alias\":\"" ++ p.Alias ++ ascii "\"\x7d")
  | Payload.config p =>
    some (ascii "\x7b\"systemInfoInterval\":" ++ ascii (toString p.SystemInfoInterval.toNat)
      ++ ascii ",\"heartbeatInterval\":" ++ ascii (toString p.HeartbeatInterval.toNat)
      ++ ascii "\x7d")
  | _ => none

def sampleUnmarshalHeartbeat (b : List Byte) : HeartbeatPayload :=
  match dropLit (ascii "\x7b\"uuid\":\"") b with
  | some r => if (untilQuote r).2 = ascii "\"\x7d" then { UUID := (untilQuote r).1 } else { UUID := [] }
  | none => { UUID := [] }

def sampleUnmarshalAuth (b : List Byte) : AuthPayload :=
  let zero : AuthPayload := { Key := [], UUID := [], Alias := [] }
  match dropLit (ascii "\x7b\"key\":\"") b with
  | none => zero
  | some r1 =>
    match dropLit (ascii "\",\"uuid\":\"") (untilQuote r1).2 with
    | none => zero
    | some r2 =>
      match dropLit (ascii "\",\"alias\":\"") (untilQuote r2).2 with
      | none => zero
      | some r3 =>
        if (untilQuote r3).2 = ascii "\"\x7d" then
          { Key := (untilQuote r1).1, UUID := (untilQuote r2).1, Alias := (untilQuote r3).1 }
        else zero

def sampleUnmarshalConfig (b : List Byte) : Option ConfigPayload :=
  if b = ascii "null" then some { SystemInfoInterval := 0, HeartbeatInterval := 0 }
  else
    match dropLit (ascii "\x7b\"systemInfoInterval\":") b with
    | none => none
    | some r1 =>
      match dropLit (ascii ",\"heartbeatInterval\":") (readNat r1).2 with
      | none => none
      | some r2 =>
        if (readNat r2).2 = ascii "\x7d" then
          some { SystemInfoInterval := (readNat r1).1, HeartbeatInterval := (readNat r2).1 }
        else none

def sampleJson : Json :=
  { Marshal := sampleMarshal
    UnmarshalAuth := sampleUnmarshalAuth
    UnmarshalHeartbeat := sampleUnmarshalHeartbeat
    UnmarshalSystemInfo := fun _ =>
      { UUID := [], NetworkTrafficIn := 0, NetworkTrafficOut := 0, Uptime := { bits := 0 },
        CPUUsage := { bits := 0 }, MemoryUsed := 0, DiskUsed := 0, SwapUsed := 0,
        NetworkTCP := 0, NetworkUDP := 0 }
    UnmarshalConfig := sampleUnmarshalConfig }

/-- A configuration for the examples: heartbeats every 30 seconds. -/
def sampleConfig : Config :=
  { Hub := { Address := ascii "hub", BackupAddresses := [ascii "backup"], Port := 9000,
             Protocol := ascii "auto" },
    AuthKey := ascii "k",
    Agent := { Alias := ascii "a", SystemInfoInterval := 5, StaticInfoInterval := 24,
               HeartbeatInterval := 30, ReconnectInterval := 5 } }

/-- A world for the examples: the clock stands at 1700000000, the dial of the first
candidate fails, every later dial returns socket 7, every write succeeds, and the
collector returns nothing. -/
def sampleWorld : World :=
  { now := fun _ => 1700000000
    uuid := ascii "u1"
    dial := fun i _ _ _ => if i = 0 then none else some 7
    write := fun _ _ => none
    staticInfo := none
    dynamicInfo := none }

/-- A connected client for the examples: socket 7 and a heartbeat ticker of 30 seconds. -/
def sampleConnected : Client :=
  { NewClient sampleConfig with
    conn := some 7, connected := true,
    heartbeat := some { period := seconds 30, running := true } }

/-- A world in which every dial fails. -/
def deadWorld : World := { sampleWorld with dial := fun _ _ _ _ => none }

/-- The four bytes that `copy(data[0:4], []byte(t))` leaves in a zeroed header: the first
four bytes of the type code, followed by zero bytes when the code is shorter. -/
def typeField (t : MessageType) : List Byte := t.take 4 ++ List.replicate (4 - t.length) 0

/-- The 32 bit big-endian unsigned integer stored in the four bytes of `b` from index `i`
on, written out byte by byte. -/
def beWord (b : List Byte) (i : Nat) : Nat :=
  (b.getD i 0).val * 2 ^ 24 + (b.getD (i + 1) 0).val * 2 ^ 16 + (b.getD (i + 2) 0).val * 2 ^ 8
    + (b.getD (i + 3) 0).val

/-- A complete frame: a twelve byte header followed by exactly as many payload bytes as
its bytes 4 to 7 declare. -/
def IsFrame (f : List Byte) : Prop := 12 ≤ f.length ∧ f.length = 12 + beWord f 4

instance (f : List Byte) : Decidable (IsFrame f) := by
  unfold IsFrame
  infer_instance

/-- The header fields stored in the first twelve bytes of a frame. -/
def frameHeader (f : List Byte) : MessageHeader :=
  { Type_ := slice f 0 4, Length := beWord f 4, Timestamp := beWord f 8 }

/-- The message that `ParseMessage` builds from a complete frame at the front of the
buffer: the header fields of the frame and the payload the switch decodes. -/
def frameMessage (js : Json) (f : List Byte) : Message :=
  { Header := frameHeader f, Payload := decodePayload js (slice f 0 4) (f.drop 12) }

/-- The loop `for p.HasCompleteMessage() { msg := p.ParseMessage() }` (client.go, lines 283
to 289) on the parser alone, run for at most `fuel` rounds: the values returned by the
calls of `ParseMessage`, one for each call and in order, and the parser when the loop
ends; `none` when the loop has not ended after `fuel` rounds. -/
def MessageParser.drain (js : Json) :
    Nat → MessageParser → Option (List (Option Message) × MessageParser)
  | 0, p => if p.HasCompleteMessage then none else some ([], p)
  | fuel + 1, p =>
    if p.HasCompleteMessage then
      let r := p.ParseMessage js
      match MessageParser.drain js fuel r.2 with
      | some rest => some (r.1 :: rest.1, rest.2)
      | none => none
    else some ([], p)

/-! ## Bytes, slices and big-endian words -/

theorem byte_val (v : Nat) : (byte v).val = v % 256 := rfl

theorem putUint32_length (v : Nat) : (putUint32 v).length = 4 := rfl

theorem uint32_putUint32 (v : Nat) (h : v < 2 ^ 32) : uint32 (putUint32 v) = v := by
  simp only [uint32, putUint32, List.getD_cons_zero, List.getD_cons_succ, byte_val]
  omega

theorem uint32_lt (b : List Byte) : uint32 b < 2 ^ 32 := by
  unfold uint32
  have h0 := (b.getD 0 0).isLt
  have h1 := (b.getD 1 0).isLt
  have h2 := (b.getD 2 0).isLt
  have h3 := (b.getD 3 0).isLt
  omega

theorem slice_length (b : List Byte) (lo hi : Nat) (h : hi ≤ b.length) :
    (slice b lo hi).length = hi - lo := by
  simp only [slice, List.length_take, List.length_drop]
  omega

/-- Overwriting the middle segment of `a ++ b ++ c`. -/
theorem copyAt_segment (a b c src : List Byte) (lo hi : Nat) (ha : a.length = lo)
    (hb : b.length = hi - lo) :
    copyAt (a ++ b ++ c) lo hi src = a ++ (src.take b.length ++ b.drop src.length) ++ c := by
  subst ha
  simp only [copyAt]
  rw [← hb]
  have h1 : (a ++ b ++ c).take a.length = a := by
    rw [List.append_assoc, List.take_left]
  have h2 : (a ++ b ++ c).drop (a.length + min b.length src.length)
      = b.drop (min b.length src.length) ++ c := by
    rw [List.append_assoc, List.drop_append, List.drop_append_of_le_length (Nat.min_le_left _ _)]
  rw [h1, h2]
  rcases Nat.le_total b.length src.length with h | h
  · rw [Nat.min_eq_left h, List.drop_of_length_le h, List.drop_of_length_le (Nat.le_refl _)]
    simp
  · rw [Nat.min_eq_right h, List.take_of_length_le (Nat.le_refl _), List.take_of_length_le h]
    simp

theorem typeField_length (t : MessageType) : (typeField t).length = 4 := by
  simp only [typeField, List.length_append, List.length_take, List.length_replicate]
  omega

theorem typeField_of_le (t : MessageType) (h : 4 ≤ t.length) : typeField t = t.take 4 := by
  simp [typeField, Nat.sub_eq_zero_of_le h]

/-! ## Encode -/

theorem zeros_split (n : Nat) :
    List.replicate (12 + n) (0 : Byte)
      = List.replicate 4 0 ++ List.replicate 4 0 ++ List.replicate 4 0 ++ List.replicate n 0 := by
  simp only [← List.replicate_add]

/-- The bytes returned by `Encode`, field by field. -/
theorem encode_bytes (js : Json) (m : Message) :
    (m.Encode js).1 = typeField m.Header.Type_
      ++ putUint32 ((m.payloadBytes js).length % 2 ^ 32)
      ++ putUint32 m.Header.Timestamp ++ m.payloadBytes js := by
  simp only [Message.Encode]
  generalize m.payloadBytes js = pb
  generalize m.Header.Type_ = t
  generalize m.Header.Timestamp = ts
  have e1 : copyAt (List.replicate (12 + pb.length) 0) 0 4 t
      = typeField t ++ List.replicate 4 0 ++ (List.replicate 4 0 ++ List.replicate pb.length 0) := by
    have h := copyAt_segment [] (List.replicate 4 0)
      (List.replicate 4 0 ++ List.replicate 4 0 ++ List.replicate pb.length 0) t 0 4 rfl rfl
    rw [zeros_split]
    simp only [List.nil_append, List.length_replicate, List.drop_replicate,
      List.append_assoc] at h ⊢
    rw [h]
    simp [typeField]
  have e2 : copyAt (typeField t ++ List.replicate 4 0
        ++ (List.replicate 4 0 ++ List.replicate pb.length 0)) 4 8
        (putUint32 (pb.length % 2 ^ 32))
      = typeField t ++ putUint32 (pb.length % 2 ^ 32) ++ List.replicate 4 0
          ++ List.replicate pb.length 0 := by
    rw [copyAt_segment (typeField t) (List.replicate 4 0) _ _ 4 8 (typeField_length t) rfl]
    simp [putUint32]
  have e3 : copyAt (typeField t ++ putUint32 (pb.length % 2 ^ 32) ++ List.replicate 4 0
        ++ List.replicate pb.length 0) 8 12 (putUint32 ts)
      = typeField t ++ putUint32 (pb.length % 2 ^ 32) ++ putUint32 ts
          ++ List.replicate pb.length 0 := by
    rw [copyAt_segment (typeField t ++ putUint32 (pb.length % 2 ^ 32)) (List.replicate 4 0) _ _
      8 12 (by simp [typeField_length, putUint32_length]) rfl]
    simp [putUint32]
  rw [e1, e2, e3]
  have hlen : (typeField t ++ putUint32 (pb.length % 2 ^ 32) ++ putUint32 ts
      ++ List.replicate pb.length 0).length = 12 + pb.length := by
    simp only [List.length_append, typeField_length, putUint32_length, List.length_replicate]
  rw [hlen]
  have h4 := copyAt_segment (typeField t ++ putUint32 (pb.length % 2 ^ 32) ++ putUint32 ts)
    (List.replicate pb.length 0) [] pb 12 (12 + pb.length)
    (by simp [typeField_length, putUint32_length]) (by simp)
  simp only [List.append_nil, List.length_replicate, List.take_length, List.drop_replicate,
    Nat.sub_self, List.replicate_zero] at h4
  exact h4

theorem encode_length (js : Json) (m : Message) :
    (m.Encode js).1.length = 12 + (m.payloadBytes js).length := by
  rw [encode_bytes]
  simp only [List.length_append, typeField_length, putUint32_length]

/-! ## The stream parser -/

theorem uint32_slice (b : List Byte) (i : Nat) : uint32 (slice b i (i + 4)) = beWord b i := by
  simp [uint32, slice, beWord, List.getD_eq_getElem?_getD, List.getElem?_take,
    List.getElem?_drop]

theorem beWord_lt (b : List Byte) (i : Nat) : beWord b i < 2 ^ 32 := by
  rw [← uint32_slice]
  exact uint32_lt _

theorem slice_segment (a b c : List Byte) (lo hi : Nat) (ha : a.length = lo)
    (hb : b.length = hi - lo) : slice (a ++ b ++ c) lo hi = b := by
  subst ha
  rw [slice, ← hb, List.append_assoc, List.drop_left, List.take_left]

theorem hasCompleteMessage_iff (p : MessageParser) :
    p.HasCompleteMessage = true
      ↔ 12 ≤ p.buffer.length ∧ 12 + beWord p.buffer 4 ≤ p.buffer.length := by
  have h := uint32_slice p.buffer 4
  simp only [MessageParser.HasCompleteMessage]
  rw [h]
  by_cases hlt : p.buffer.length < 12
  · simp only [hlt, if_true]
    constructor
    · intro hf
      exact absurd hf (by decide)
    · intro hc
      omega
  · simp only [hlt, if_false, decide_eq_true_eq, ge_iff_le]
    constructor
    · intro hc
      exact ⟨by omega, hc⟩
    · intro hc
      exact hc.2

theorem parseMessage_of_complete (js : Json) (p : MessageParser)
    (h : p.HasCompleteMessage = true) :
    p.ParseMessage js
      = (some { Header := { Type_ := slice p.buffer 0 4, Length := beWord p.buffer 4,
                            Timestamp := beWord p.buffer 8 },
                Payload := decodePayload js (slice p.buffer 0 4)
                  (slice p.buffer 12 (12 + beWord p.buffer 4)) },
         { buffer := p.buffer.drop (12 + beWord p.buffer 4) }) := by
  simp only [MessageParser.ParseMessage, h, Bool.not_true, Bool.false_eq_true, if_false,
    uint32_slice p.buffer 4, uint32_slice p.buffer 8]

theorem parseMessage_of_incomplete (js : Json) (p : MessageParser)
    (h : p.HasCompleteMessage = false) : p.ParseMessage js = (none, p) := by
  simp only [MessageParser.ParseMessage, h, Bool.not_false, if_true]

theorem append_fold (p : MessageParser) (chunks : List (List Byte)) :
    chunks.foldl MessageParser.Append p = p.Append chunks.flatten := by
  induction chunks generalizing p with
  | nil => simp [MessageParser.Append]
  | cons c cs ih =>
    rw [List.foldl_cons, ih]
    simp [MessageParser.Append, List.append_assoc]

theorem parseMessage_some_iff_aux (js : Json) (p : MessageParser) :
    (p.ParseMessage js).1.isSome = true ↔ p.HasCompleteMessage = true := by
  cases hc : p.HasCompleteMessage with
  | true => rw [parseMessage_of_complete js p hc]; simp
  | false => rw [parseMessage_of_incomplete js p hc]; simp

/-- Parsing a buffer that starts with a well-formed frame. -/
theorem parseMessage_frame (js : Json) (t pl rest : List Byte) (len ts : Nat)
    (ht : t.length = 4) (hlen : len < 2 ^ 32) (hts : ts < 2 ^ 32) (hpl : pl.length = len) :
    ({ buffer := t ++ putUint32 len ++ putUint32 ts ++ pl ++ rest } : MessageParser).ParseMessage js
      = (some { Header := { Type_ := t, Length := len, Timestamp := ts },
                Payload := decodePayload js t pl },
         { buffer := rest }) := by
  have hT : slice (t ++ putUint32 len ++ putUint32 ts ++ pl ++ rest) 0 4 = t := by
    have h := slice_segment [] t (putUint32 len ++ putUint32 ts ++ pl ++ rest) 0 4 rfl
      (by simp [ht])
    simpa [List.append_assoc] using h
  have hL : beWord (t ++ putUint32 len ++ putUint32 ts ++ pl ++ rest) 4 = len := by
    rw [← uint32_slice]
    have h := slice_segment t (putUint32 len) (putUint32 ts ++ pl ++ rest) 4 (4 + 4) ht rfl
    simp only [List.append_assoc] at h ⊢
    rw [h, uint32_putUint32 len hlen]
  have hS : beWord (t ++ putUint32 len ++ putUint32 ts ++ pl ++ rest) 8 = ts := by
    rw [← uint32_slice]
    have h := slice_segment (t ++ putUint32 len) (putUint32 ts) (pl ++ rest) 8 (8 + 4)
      (by simp [ht, putUint32_length]) (by simp [putUint32_length])
    simp only [List.append_assoc] at h ⊢
    rw [h, uint32_putUint32 ts hts]
  have hP : slice (t ++ putUint32 len ++ putUint32 ts ++ pl ++ rest) 12 (12 + len) = pl := by
    exact slice_segment (t ++ putUint32 len ++ putUint32 ts) pl rest 12 (12 + len)
      (by simp [ht, putUint32_length]) (by simp [hpl])
  have hD : (t ++ putUint32 len ++ putUint32 ts ++ pl ++ rest).drop (12 + len) = rest := by
    have hl : (t ++ putUint32 len ++ putUint32 ts ++ pl).length = 12 + len := by
      simp only [List.length_append, ht, putUint32_length, hpl]
    rw [← hl, List.drop_left]
  have hc : ({ buffer := t ++ putUint32 len ++ putUint32 ts ++ pl ++ rest } :
      MessageParser).HasCompleteMessage = true := by
    rw [hasCompleteMessage_iff]
    simp only [hL, List.length_append, ht, putUint32_length, hpl]
    omega
  rw [parseMessage_of_complete js _ hc]
  simp only [hT, hL, hS, hP, hD]

/-- Parsing what `Encode` returns, from an empty parser. -/
theorem parseMessage_encode (js : Json) (m : Message)
    (hlen : (m.payloadBytes js).length < 2 ^ 32) (hts : m.Header.Timestamp < 2 ^ 32) :
    (NewMessageParser.Append (m.Encode js).1).ParseMessage js
      = (some { Header := { Type_ := typeField m.Header.Type_,
                            Length := (m.payloadBytes js).length,
                            Timestamp := m.Header.Timestamp },
                Payload := decodePayload js (typeField m.Header.Type_) (m.payloadBytes js) },
         { buffer := [] }) := by
  have h := parseMessage_frame js (typeField m.Header.Type_) (m.payloadBytes js) []
    (m.payloadBytes js).length m.Header.Timestamp (typeField_length _) hlen hts rfl
  simp only [MessageParser.Append, NewMessageParser, List.nil_append, encode_bytes,
    Nat.mod_eq_of_lt hlen]
  simpa using h

theorem newMessage_timestamp_lt (t : MessageType) (p : Payload) (now : Int) :
    (NewMessage t p now).Header.Timestamp < 2 ^ 32 := by
  simp only [NewMessage]
  have h1 : (0 : Int) ≤ now % 2 ^ 32 := Int.emod_nonneg _ (by norm_num)
  have h2 : now % 2 ^ 32 < 2 ^ 32 := Int.emod_lt_of_pos _ (by norm_num)
  omega

/-! ## Round trip of a typed payload -/

theorem typeField_heartbeat : typeField MessageTypeHeartbeat = ascii "HEAR" := by decide

theorem typeField_config : typeField MessageTypeConfig = ascii "CONF" := by decide

/-- A four byte type code that is not `AUTH` selects no case of the switch: the other two
case labels are five bytes long. -/
theorem decodePayload_of_ne_auth (js : Json) (t pl : List Byte) (ht : t.length = 4)
    (hne : t ≠ MessageTypeAuth) : decodePayload js t pl = Payload.nil := by
  have h1 : t ≠ MessageTypeHeartbeat := by
    intro h
    rw [h] at ht
    exact absurd ht (by decide)
  have h2 : t ≠ MessageTypeSystemInfo := by
    intro h
    rw [h] at ht
    exact absurd ht (by decide)
  simp only [decodePayload, hne, h1, h2, if_false]

/-- C1, at the failing input.  A HEART message is encoded, appended to an empty parser
and parsed: the frame is complete and a message comes back, its type code is the four
bytes `HEAR`, no case of the switch matches them, and the returned `Payload` is nil, not the
heartbeat payload that was encoded. -/
theorem heartbeat_round_trip_payload_nil (js : Json) (p : HeartbeatPayload) (now : Int)
    (hlen : ((NewMessage MessageTypeHeartbeat (Payload.heartbeat p) now).payloadBytes js).length
      < 2 ^ 32) :
    (NewMessageParser.Append
        ((NewMessage MessageTypeHeartbeat (Payload.heartbeat p) now).Encode js).1).ParseMessage js
      = (some { Header :=
                  { Type_ := ascii "HEAR",
                    Length := ((NewMessage MessageTypeHeartbeat (Payload.heartbeat p)
                      now).payloadBytes js).length,
                    Timestamp := (now % 2 ^ 32).toNat },
                Payload := Payload.nil },
         { buffer := [] })
      ∧ Payload.nil ≠ Payload.heartbeat p := by
  refine ⟨?_, by simp⟩
  rw [parseMessage_encode js _ hlen (newMessage_timestamp_lt _ _ _)]
  have ht : (NewMessage MessageTypeHeartbeat (Payload.heartbeat p) now).Header.Type_
      = MessageTypeHeartbeat := rfl
  rw [ht, typeField_heartbeat,
    decodePayload_of_ne_auth js (ascii "HEAR") _ (by decide) (by decide)]
  rfl

/-- The failing input of C1: the heartbeat payload with uuid `u1`, at clock 1700000000. -/
theorem heartbeat_round_trip_payload_nil_witness :
    ((NewMessage MessageTypeHeartbeat (Payload.heartbeat { UUID := ascii "u1" })
        1700000000).payloadBytes sampleJson).length < 2 ^ 32
      ∧ ((NewMessageParser.Append
          ((NewMessage MessageTypeHeartbeat (Payload.heartbeat { UUID := ascii "u1" })
            1700000000).Encode sampleJson).1).ParseMessage sampleJson).1.map Message.Payload
        = some Payload.nil :=
  ⟨by decide,
   by rw [(heartbeat_round_trip_payload_nil sampleJson { UUID := ascii "u1" } 1700000000
      (by decide)).1]; rfl⟩

/-! ## Buffer conservation, fragmentation, completeness -/

/-- C2.  Buffer conservation: when `HasCompleteMessage` holds of a buffer `b`, with `N` the
big-endian value of `b[4:8)` (zero included), `ParseMessage` returns a message and leaves
the buffer `b` without its first `12 + N` bytes: those bytes exist, the rest is unchanged
and in order, and the removed bytes followed by the rest are `b` again. -/
theorem parseMessage_buffer_conservation (js : Json) (p : MessageParser)
    (h : p.HasCompleteMessage = true) :
    (∃ m, (p.ParseMessage js).1 = some m)
      ∧ 12 + beWord p.buffer 4 ≤ p.buffer.length
      ∧ (p.ParseMessage js).2.buffer = p.buffer.drop (12 + beWord p.buffer 4)
      ∧ p.buffer.take (12 + beWord p.buffer 4) ++ (p.ParseMessage js).2.buffer = p.buffer
      ∧ (p.ParseMessage js).2.buffer.length + (12 + beWord p.buffer 4) = p.buffer.length := by
  have hc := (hasCompleteMessage_iff p).1 h
  rw [parseMessage_of_complete js p h]
  refine ⟨⟨_, rfl⟩, hc.2, rfl, List.take_append_drop _ _, ?_⟩
  simp only [List.length_drop]
  omega

/-- A header-only frame (declared length zero) followed by two more bytes: the twelve bytes
of the frame go, the two bytes stay. -/
theorem parseMessage_buffer_conservation_witness :
    (({ buffer := ascii "PING" ++ [0, 0, 0, 0] ++ [0, 0, 0, 7] ++ [9, 8] } :
        MessageParser).HasCompleteMessage = true)
      ∧ (({ buffer := ascii "PING" ++ [0, 0, 0, 0] ++ [0, 0, 0, 7] ++ [9, 8] } :
        MessageParser).ParseMessage sampleJson).2.buffer = [9, 8] :=
  ⟨by decide,
   by rw [(parseMessage_buffer_conservation sampleJson
      { buffer := ascii "PING" ++ [0, 0, 0, 0] ++ [0, 0, 0, 7] ++ [9, 8] } (by decide)).2.2.1]
      decide⟩

/-- C3.  Fragmentation invariance: from any parser state, appending the chunks of a list
one after the other leaves the same buffer as appending their concatenation in one call,
so `ParseMessage` then returns the same message and leaves the same buffer.  This holds
for every list of chunks, those that split a complete frame into non-empty pieces
included. -/
theorem fragmentation_invariance (js : Json) (p : MessageParser) (chunks : List (List Byte)) :
    chunks.foldl MessageParser.Append p = p.Append chunks.flatten
      ∧ (chunks.foldl MessageParser.Append p).ParseMessage js
        = (p.Append chunks.flatten).ParseMessage js := by
  have h := append_fold p chunks
  exact ⟨h, by rw [h]⟩

/-- C4.  `HasCompleteMessage` is true exactly when the buffer has at least 12 bytes and at
least `12 + L` bytes, `L` being the 32 bit big-endian unsigned integer in bytes 4 to 7. -/
theorem hasCompleteMessage_spec (p : MessageParser) :
    (p.HasCompleteMessage = true
      ↔ p.buffer.length ≥ 12 ∧ p.buffer.length ≥ 12 + beWord p.buffer 4)
      ∧ beWord p.buffer 4 < 2 ^ 32 :=
  ⟨hasCompleteMessage_iff p, beWord_lt _ _⟩

/-- C7.  `ParseMessage` returns a message exactly when `HasCompleteMessage` is true; when
the buffer is shorter than 12 bytes, or shorter than 12 plus the declared length (any
value below `2 ^ 32`), it returns nothing and the parser is unchanged. -/
theorem parseMessage_some_iff (js : Json) (p : MessageParser) :
    ((p.ParseMessage js).1.isSome = true ↔ p.HasCompleteMessage = true)
      ∧ ((p.buffer.length < 12 ∨ p.buffer.length < 12 + beWord p.buffer 4)
          ↔ p.HasCompleteMessage = false)
      ∧ (p.HasCompleteMessage = false → p.ParseMessage js = (none, p)) := by
  have hiff := hasCompleteMessage_iff p
  refine ⟨?_, ?_, parseMessage_of_incomplete js p⟩
  · cases hc : p.HasCompleteMessage with
    | true => rw [parseMessage_of_complete js p hc]; simp
    | false => rw [parseMessage_of_incomplete js p hc]; simp
  · cases hc : p.HasCompleteMessage with
    | true =>
      have h := hiff.1 hc
      constructor
      · intro h2
        omega
      · intro h2
        exact absurd h2 (by decide)
    | false =>
      constructor
      · intro _
        rfl
      · intro _
        by_contra hn
        have h2 : p.HasCompleteMessage = true := hiff.2 (by omega)
        rw [hc] at h2
        exact absurd h2 (by decide)

/-! ## Wire layout -/

/-- C5.  Wire layout of `Encode`: for a message whose serialized payload `s` is shorter
than `2 ^ 32` bytes, the result has `12 + len s` bytes; bytes 0 to 3 are the first four
bytes of the type code (zero filled when the code has fewer than four bytes, which none
of the six known codes has); bytes 4 to 7 are `len s` big-endian, so the length field is
the byte count of the payload that follows; bytes 8 to 11 are the header timestamp
big-endian; bytes 12 on are `s`; the header of the message holds `len s` afterwards.
With a JSON library that serialises the heartbeat payload `u1` as `{"uuid":"u1"}`, a
HEART message encodes to `48 45 41 52`, the length 13, the timestamp and those JSON
bytes. -/
theorem encode_wire_layout (js : Json) (m : Message)
    (h : (m.payloadBytes js).length < 2 ^ 32) :
    (m.Encode js).1.length = 12 + (m.payloadBytes js).length
      ∧ slice (m.Encode js).1 0 4 = typeField m.Header.Type_
      ∧ (4 ≤ m.Header.Type_.length → slice (m.Encode js).1 0 4 = m.Header.Type_.take 4)
      ∧ slice (m.Encode js).1 4 8 = putUint32 (m.payloadBytes js).length
      ∧ beWord (m.Encode js).1 4 = (m.payloadBytes js).length
      ∧ slice (m.Encode js).1 8 12 = putUint32 m.Header.Timestamp
      ∧ beWord (m.Encode js).1 8 = m.Header.Timestamp % 2 ^ 32
      ∧ (m.Encode js).1.drop 12 = m.payloadBytes js
      ∧ (m.Encode js).2.Header.Length = (m.payloadBytes js).length
      ∧ (∀ now : Int,
          js.Marshal (Payload.heartbeat { UUID := ascii "u1" })
              = some (ascii "\x7b\"uuid\":\"u1\"\x7d") →
            ((NewMessage MessageTypeHeartbeat (Payload.heartbeat { UUID := ascii "u1" })
                now).Encode js).1
              = [0x48, 0x45, 0x41, 0x52] ++ [0, 0, 0, 13] ++ putUint32 (now % 2 ^ 32).toNat
                  ++ ascii "\x7b\"uuid\":\"u1\"\x7d") := by
  have hb := encode_bytes js m
  rw [Nat.mod_eq_of_lt h] at hb
  have hT : slice (m.Encode js).1 0 4 = typeField m.Header.Type_ := by
    rw [hb]
    have := slice_segment [] (typeField m.Header.Type_)
      (putUint32 (m.payloadBytes js).length ++ putUint32 m.Header.Timestamp
        ++ m.payloadBytes js) 0 4 rfl (by simp [typeField_length])
    simpa [List.append_assoc] using this
  have hL : slice (m.Encode js).1 4 8 = putUint32 (m.payloadBytes js).length := by
    rw [hb]
    have := slice_segment (typeField m.Header.Type_) (putUint32 (m.payloadBytes js).length)
      (putUint32 m.Header.Timestamp ++ m.payloadBytes js) 4 8 (typeField_length _)
      (by simp [putUint32_length])
    simpa [List.append_assoc] using this
  have hS : slice (m.Encode js).1 8 12 = putUint32 m.Header.Timestamp := by
    rw [hb]
    exact slice_segment (typeField m.Header.Type_ ++ putUint32 (m.payloadBytes js).length)
      (putUint32 m.Header.Timestamp) (m.payloadBytes js) 8 12
      (by simp [typeField_length, putUint32_length]) (by simp [putUint32_length])
  have hmod : putUint32 m.Header.Timestamp = putUint32 (m.Header.Timestamp % 2 ^ 32) := by
    simp only [putUint32, byte, Fin.mk.injEq, List.cons.injEq, and_true]
    refine ⟨?_, ?_, ?_, ?_⟩ <;> omega
  refine ⟨encode_length js m, hT, ?_, hL, ?_, hS, ?_, ?_, ?_, ?_⟩
  · intro h4
    rw [hT, typeField_of_le _ h4]
  · have := uint32_slice (m.Encode js).1 4
    rw [← this, hL, uint32_putUint32 _ h]
  · have := uint32_slice (m.Encode js).1 8
    rw [← this, hS, hmod, uint32_putUint32 _ (Nat.mod_lt _ (by norm_num))]
  · rw [hb]
    have hl : (typeField m.Header.Type_ ++ putUint32 (m.payloadBytes js).length
        ++ putUint32 m.Header.Timestamp).length = 12 := by
      simp only [List.length_append, typeField_length, putUint32_length]
    rw [← hl, List.drop_left]
  · simp only [Message.Encode]
    exact Nat.mod_eq_of_lt h
  · intro now hm
    rw [encode_bytes]
    have hp : (NewMessage MessageTypeHeartbeat (Payload.heartbeat { UUID := ascii "u1" })
        now).payloadBytes js = ascii "\x7b\"uuid\":\"u1\"\x7d" := by
      simp only [Message.payloadBytes, NewMessage, hm, Option.getD_some]
    rw [hp]
    have ht : (NewMessage MessageTypeHeartbeat (Payload.heartbeat { UUID := ascii "u1" })
        now).Header.Type_ = MessageTypeHeartbeat := rfl
    have hs : (NewMessage MessageTypeHeartbeat (Payload.heartbeat { UUID := ascii "u1" })
        now).Header.Timestamp = (now % 2 ^ 32).toNat := rfl
    rw [ht, hs, typeField_heartbeat]
    have e1 : ascii "HEAR" = [0x48, 0x45, 0x41, 0x52] := by decide
    have e2 : putUint32 ((ascii "\x7b\"uuid\":\"u1\"\x7d").length % 2 ^ 32) = [0, 0, 0, 13] := by
      decide
    rw [e1, e2]

/-- The HEART message of the literal scenario under `sampleJson` at clock 1700000000:
25 bytes, written out. -/
theorem encode_wire_layout_witness :
    ((NewMessage MessageTypeHeartbeat (Payload.heartbeat { UUID := ascii "u1" })
        1700000000).payloadBytes sampleJson).length < 2 ^ 32
      ∧ ((NewMessage MessageTypeHeartbeat (Payload.heartbeat { UUID := ascii "u1" })
          1700000000).Encode sampleJson).1
        = [0x48, 0x45, 0x41, 0x52, 0, 0, 0, 13, 0x65, 0x53, 0xf1, 0x00,
           123, 34, 117, 117, 105, 100, 34, 58, 34, 117, 49, 34, 125] :=
  ⟨by decide,
   by rw [(encode_wire_layout sampleJson
        (NewMessage MessageTypeHeartbeat (Payload.heartbeat { UUID := ascii "u1" }) 1700000000)
        (by decide)).2.2.2.2.2.2.2.2.2 1700000000 (by decide)]
      decide⟩

/-! ## Frames of an unknown type -/

/-- C6 as stated fails.  Two complete frames of the unknown type `PING` carry the payload
bytes `1 2 3` and `4 5 6`.  `ParseMessage` returns a message for each, and both messages
have the nil `Payload`: the payload bytes are not in the message (in particular the
`Payload` is not the byte slice `1 2 3`), and the parser has dropped them from its buffer. -/
theorem unknown_type_payload_not_retained :
    ascii "PING" ∉ knownTypes
      ∧ (({ buffer := ascii "PING" ++ [0, 0, 0, 3] ++ [0, 0, 0, 7] ++ [1, 2, 3] } :
          MessageParser).ParseMessage sampleJson)
        = (some { Header := { Type_ := ascii "PING", Length := 3, Timestamp := 7 },
                  Payload := Payload.nil },
           { buffer := [] })
      ∧ (({ buffer := ascii "PING" ++ [0, 0, 0, 3] ++ [0, 0, 0, 7] ++ [4, 5, 6] } :
          MessageParser).ParseMessage sampleJson)
        = (some { Header := { Type_ := ascii "PING", Length := 3, Timestamp := 7 },
                  Payload := Payload.nil },
           { buffer := [] })
      ∧ Payload.nil ≠ Payload.raw [1, 2, 3] := by
  refine ⟨by decide, by decide, by decide, by simp⟩

/-- C6, amended.  For every complete frame whose four byte type code is not the first four
bytes of a known type code, `ParseMessage` returns a message: its header holds the type
code, the declared length and the timestamp of the frame, its `Payload` is nil, and the
whole frame, payload bytes included, is removed from the buffer. -/
theorem unknown_type_returns_message (js : Json) (p : MessageParser)
    (h : p.HasCompleteMessage = true)
    (hu : ∀ t ∈ knownTypes, slice p.buffer 0 4 ≠ t.take 4) :
    ∃ m, (p.ParseMessage js).1 = some m
      ∧ m.Header = { Type_ := slice p.buffer 0 4, Length := beWord p.buffer 4,
                     Timestamp := beWord p.buffer 8 }
      ∧ m.Payload = Payload.nil
      ∧ (p.ParseMessage js).2.buffer = p.buffer.drop (12 + beWord p.buffer 4) := by
  have hc := (hasCompleteMessage_iff p).1 h
  have hlen : (slice p.buffer 0 4).length = 4 := by
    rw [slice_length _ _ _ (by omega)]
  have hne : slice p.buffer 0 4 ≠ MessageTypeAuth := by
    have := hu MessageTypeAuth (by simp [knownTypes])
    intro he
    exact this (by rw [he]; decide)
  rw [parseMessage_of_complete js p h]
  exact ⟨_, rfl, rfl, decodePayload_of_ne_auth js _ _ hlen hne, rfl⟩

/-- A complete `PING` frame with three payload bytes and one byte after it. -/
theorem unknown_type_returns_message_witness :
    (({ buffer := ascii "PING" ++ [0, 0, 0, 3] ++ [0, 0, 0, 7] ++ [1, 2, 3] ++ [9] } :
        MessageParser).HasCompleteMessage = true)
      ∧ ∃ m, (({ buffer := ascii "PING" ++ [0, 0, 0, 3] ++ [0, 0, 0, 7] ++ [1, 2, 3] ++ [9] } :
          MessageParser).ParseMessage sampleJson).1 = some m
        ∧ m.Payload = Payload.nil :=
  ⟨by decide,
   (unknown_type_returns_message sampleJson
      { buffer := ascii "PING" ++ [0, 0, 0, 3] ++ [0, 0, 0, 7] ++ [1, 2, 3] ++ [9] }
      (by decide) (by decide)).imp fun _ hm => ⟨hm.1, hm.2.2.1⟩⟩

/-! ## CONFIG through the receive path -/

/-- A message returned by `ParseMessage` has a four byte type code, which is never the six
byte constant `CONFIG`: `handleMessage` does nothing with it. -/
theorem handleMessage_of_four (js : Json) (c : Client) (msg : Message)
    (h : msg.Header.Type_.length = 4) : c.handleMessage js msg = c := by
  have hne : msg.Header.Type_ ≠ MessageTypeConfig := by
    intro he
    rw [he] at h
    exact absurd h (by decide)
  simp only [Client.handleMessage, hne, if_false]

/-- The receive loop on a buffer that holds exactly one frame, of a four byte type. -/
theorem dispatch_single (js : Json) (c : Client) (fuel : Nat) (msg : Message)
    (hparse : c.parser.ParseMessage js = (some msg, { buffer := [] }))
    (h4 : msg.Header.Type_.length = 4) :
    Client.dispatch js (fuel + 1) c = { c with parser := { buffer := [] } } := by
  have hc : c.parser.HasCompleteMessage = true :=
    (parseMessage_some_iff_aux js c.parser).1 (by rw [hparse]; rfl)
  have hinc : ({ buffer := [] } : MessageParser).HasCompleteMessage = false := by decide
  rw [Client.dispatch]
  simp only [hc, if_true, hparse]
  rw [handleMessage_of_four js _ _ h4]
  cases fuel with
  | zero => rw [Client.dispatch]
  | succ k =>
    rw [Client.dispatch]
    simp only [hinc, Bool.false_eq_true, if_false]

/-- C8, at the failing input.  The hub encodes a CONFIG message with heartbeat interval
`T2`; the client, whose parser is empty, appends the frame, parses it and handles the
message.  A message is parsed, with type code `CONF` and nil `Payload`; `handleMessage`
leaves the client as it was; and after the receive path the client is the client
before it, so its heartbeat interval is still the old one and the ticker is not reset. -/
theorem config_frame_interval_unchanged (js : Json) (c : Client) (sysInterval T2 now : Int)
    (hempty : c.parser.buffer = [])
    (hlen : ((NewMessage MessageTypeConfig
        (Payload.config { SystemInfoInterval := sysInterval, HeartbeatInterval := T2 })
        now).payloadBytes js).length < 2 ^ 32) :
    (∃ msg, ((c.parser.Append ((NewMessage MessageTypeConfig
          (Payload.config { SystemInfoInterval := sysInterval, HeartbeatInterval := T2 })
          now).Encode js).1).ParseMessage js).1 = some msg
        ∧ msg.Header.Type_ = ascii "CONF" ∧ msg.Payload = Payload.nil
        ∧ c.handleMessage js msg = c)
      ∧ c.receive js ((NewMessage MessageTypeConfig
          (Payload.config { SystemInfoInterval := sysInterval, HeartbeatInterval := T2 })
          now).Encode js).1 = c := by
  have hp : c.parser = NewMessageParser := by
    cases hc : c.parser with
    | mk b => rw [hc] at hempty; simp only [NewMessageParser] at hempty ⊢; rw [hempty]
  generalize hm : NewMessage MessageTypeConfig
    (Payload.config { SystemInfoInterval := sysInterval, HeartbeatInterval := T2 }) now = m
    at hlen ⊢
  have ht : m.Header.Type_ = MessageTypeConfig := by rw [← hm]; rfl
  have hts : m.Header.Timestamp < 2 ^ 32 := by rw [← hm]; exact newMessage_timestamp_lt _ _ _
  have hparse := parseMessage_encode js m hlen hts
  rw [ht, typeField_config,
    decodePayload_of_ne_auth js (ascii "CONF") _ (by decide) (by decide)] at hparse
  constructor
  · rw [hp, hparse]
    exact ⟨_, rfl, rfl, rfl, handleMessage_of_four js c _ rfl⟩
  · have hl : ((NewMessageParser.Append (m.Encode js).1).buffer).length
        = (11 + (m.payloadBytes js).length) + 1 := by
      simp only [MessageParser.Append, NewMessageParser, List.nil_append, encode_length]
      omega
    obtain ⟨cfg, conn, parser, connected, reconnect, stop, heartbeat, registered, once⟩ := c
    simp only at hp
    subst hp
    simp only [Client.receive]
    rw [hl]
    exact dispatch_single js
      { cfg := cfg, conn := conn, parser := NewMessageParser.Append (m.Encode js).1,
        connected := connected, reconnect := reconnect, stop := stop, heartbeat := heartbeat,
        registered := registered, shutdownOnce := once }
      (11 + (m.payloadBytes js).length) _ hparse rfl

/-- The failing input of C8: the current interval is 30 seconds and the CONFIG frame,
encoded with `sampleJson`, asks for 10; after the receive path the interval is 30. -/
theorem config_frame_interval_unchanged_witness :
    (NewClient sampleConfig).parser.buffer = []
      ∧ (NewClient sampleConfig).cfg.Agent.HeartbeatInterval = 30
      ∧ sampleJson.UnmarshalConfig ((NewMessage MessageTypeConfig
          (Payload.config { SystemInfoInterval := 0, HeartbeatInterval := 10 })
          1700000000).payloadBytes sampleJson)
        = some { SystemInfoInterval := 0, HeartbeatInterval := 10 }
      ∧ ((NewClient sampleConfig).receive sampleJson ((NewMessage MessageTypeConfig
          (Payload.config { SystemInfoInterval := 0, HeartbeatInterval := 10 })
          1700000000).Encode sampleJson).1).cfg.Agent.HeartbeatInterval = 30 :=
  ⟨rfl, rfl, by decide,
   by rw [(config_frame_interval_unchanged sampleJson (NewClient sampleConfig) 0 10 1700000000
      rfl (by decide)).2]; rfl⟩

/-! ## Reconnect coalescing -/

theorem trySend_le (q : Nat) (h : q ≤ reconnectCap) : trySend reconnectCap q = 1 := by
  simp only [trySend, reconnectCap] at h ⊢
  split <;> omega

theorem handleDisconnectLocked_reconnect (c : Client) :
    c.handleDisconnectLocked.1.reconnect = c.reconnect := by
  cases hc : c.conn <;> simp [Client.handleDisconnectLocked, hc]

theorem Sys.step_pcs_length (s : Sys) (i : Nat) : (s.step i).pcs.length = s.pcs.length := by
  unfold Sys.step
  split <;> simp

theorem Sys.step_inv (s : Sys) (i : Nat) (h : s.Inv) : (s.step i).Inv := by
  unfold Sys.step
  split
  · refine ⟨?_, ?_⟩
    · simp only [handleDisconnectLocked_reconnect]
      exact h.1
    · intro hd
      simp only [handleDisconnectLocked_reconnect]
      rcases List.mem_or_eq_of_mem_set hd with hm | he
      · exact h.2 hm
      · exact absurd he (by decide)
  · have h1 : s.client.handleDisconnectSignal.reconnect = 1 := by
      simp only [Client.handleDisconnectSignal]
      exact trySend_le _ h.1
    exact ⟨by rw [h1]; decide, fun _ => h1⟩
  · exact h

theorem Sys.run_inv (s : Sys) (sched : List Nat) (h : s.Inv) : (s.run sched).Inv := by
  induction sched generalizing s with
  | nil => exact h
  | cons i rest ih => exact ih (s.step i) (Sys.step_inv s i h)

theorem Sys.run_pcs_length (s : Sys) (sched : List Nat) :
    (s.run sched).pcs.length = s.pcs.length := by
  induction sched generalizing s with
  | nil => rfl
  | cons i rest ih =>
    have := ih (s.step i)
    rw [Sys.step_pcs_length] at this
    exact this

theorem Sys.init_inv (c : Client) (n : Nat) (h : c.reconnect ≤ reconnectCap) :
    (Sys.init c n).Inv := by
  refine ⟨h, ?_⟩
  intro hd
  simp only [Sys.init] at hd
  exact absurd (List.eq_of_mem_replicate hd) (by decide)

theorem Sys.step_getElem? (s : Sys) (i j : Nat) :
    (s.step i).pcs[j]? = if i = j then (s.pcs[j]?).map Pc.next else s.pcs[j]? := by
  unfold Sys.step
  split
  · rename_i h
    have hlt : i < s.pcs.length := (List.getElem?_eq_some.1 h).1
    simp only [List.getElem?_set, hlt, if_true]
    by_cases hij : i = j
    · subst hij
      simp [h, Pc.next]
    · simp [hij]
  · rename_i h
    have hlt : i < s.pcs.length := (List.getElem?_eq_some.1 h).1
    simp only [List.getElem?_set, hlt, if_true]
    by_cases hij : i = j
    · subst hij
      simp [h, Pc.next]
    · simp [hij]
  · rename_i h1 h2
    by_cases hij : i = j
    · subst hij
      simp only [if_true]
      cases hp : s.pcs[i]? with
      | none => rfl
      | some pc =>
        cases pc with
        | start => exact absurd hp (h1)
        | unlocked => exact absurd hp (h2)
        | done => rfl
    · simp [hij]

theorem Sys.run_getElem? (s : Sys) (sched : List Nat) (j : Nat) :
    (s.run sched).pcs[j]? = (s.pcs[j]?).map (Pc.next^[sched.count j]) := by
  induction sched generalizing s with
  | nil => simp [Sys.run]
  | cons i rest ih =>
    have h := ih (s.step i)
    simp only [Sys.run, List.foldl_cons] at h ⊢
    rw [h, Sys.step_getElem?, List.count_cons]
    by_cases hij : i = j
    · subst hij
      simp only [if_true, beq_self_eq_true, Option.map_map]
      congr 1
    · have hb : (i == j) = false := by simpa using hij
      simp [hij, hb]

theorem Pc.next_iterate_start (k : Nat) (h : 2 ≤ k) : Pc.next^[k] Pc.start = Pc.done := by
  obtain ⟨m, rfl⟩ : ∃ m, k = m + 2 := ⟨k - 2, by omega⟩
  induction m with
  | zero => rfl
  | succ m ih =>
    rw [show m + 1 + 2 = (m + 2) + 1 from rfl, Function.iterate_succ_apply', ih (by omega)]
    rfl

/-- A call that has taken two steps has returned. -/
theorem Sys.run_done (c : Client) (n : Nat) (sched : List Nat) (i : Nat) (hi : i < n)
    (h : 2 ≤ sched.count i) : ((Sys.init c n).run sched).pcs[i]? = some Pc.done := by
  rw [Sys.run_getElem?]
  simp only [Sys.init, List.getElem?_replicate, hi, if_true, Option.map_some']
  rw [Pc.next_iterate_start _ h]

/-- C9.  Reconnect coalescing, with the reconnect channel as a queue of capacity one.
`n ≥ 1` calls of `handleDisconnect` start on a client whose queue is empty and take their
steps in the order `sched`.  In the state reached the queue holds at most one request.
When all `n` calls have returned it holds exactly one; every call that takes its two
steps in `sched` has returned, so this is the case for every order in which each call
runs to its end.  A call made while a request is pending leaves the queue as it is. -/
theorem reconnect_coalescing (c : Client) (n : Nat) (sched : List Nat)
    (hempty : c.reconnect = 0) (hn : 1 ≤ n) :
    ((∀ pc ∈ ((Sys.init c n).run sched).pcs, pc = Pc.done)
        → ((Sys.init c n).run sched).client.reconnect = 1)
      ∧ ((∀ i, i < n → 2 ≤ sched.count i)
        → (∀ pc ∈ ((Sys.init c n).run sched).pcs, pc = Pc.done)
          ∧ ((Sys.init c n).run sched).client.reconnect = 1)
      ∧ ((Sys.init c n).run sched).client.reconnect ≤ 1
      ∧ (∀ c1 : Client, c1.reconnect = 1 →
          c1.handleDisconnectSignal.reconnect = c1.reconnect
            ∧ c1.handleDisconnect.1.reconnect = c1.reconnect) := by
  have hinv := Sys.run_inv (Sys.init c n) sched
    (Sys.init_inv c n (by rw [hempty]; exact Nat.zero_le _))
  have hlen : ((Sys.init c n).run sched).pcs.length = n := by
    rw [Sys.run_pcs_length]
    simp [Sys.init]
  have hall : (∀ pc ∈ ((Sys.init c n).run sched).pcs, pc = Pc.done)
      → ((Sys.init c n).run sched).client.reconnect = 1 := by
    intro hall
    cases hp : ((Sys.init c n).run sched).pcs with
    | nil =>
      rw [hp] at hlen
      simp only [List.length_nil] at hlen
      omega
    | cons pc rest =>
      have hmem : pc ∈ ((Sys.init c n).run sched).pcs := by rw [hp]; exact List.mem_cons_self _ _
      have hdone := hall pc hmem
      rw [hdone] at hmem
      exact hinv.2 hmem
  refine ⟨hall, ?_, hinv.1, ?_⟩
  · intro hcount
    have hd : ∀ pc ∈ ((Sys.init c n).run sched).pcs, pc = Pc.done := by
      intro pc hpc
      obtain ⟨i, hi⟩ := List.mem_iff_getElem?.1 hpc
      have hlt : i < n := by
        rw [← hlen]
        exact (List.getElem?_eq_some.1 hi).1
      have := Sys.run_done c n sched i hlt (hcount i hlt)
      rw [this] at hi
      exact (Option.some.inj hi).symm
    exact ⟨hd, hall hd⟩
  · intro c1 h1
    have hs : c1.handleDisconnectSignal.reconnect = c1.reconnect := by
      simp only [Client.handleDisconnectSignal, trySend, reconnectCap, h1]
      decide
    refine ⟨hs, ?_⟩
    simp only [Client.handleDisconnect, Client.handleDisconnectSignal,
      handleDisconnectLocked_reconnect, trySend, reconnectCap, h1]
    decide

/-- Three calls on a new client, interleaved as 0 1 1 2 0 2: all three return and one
request is pending. -/
theorem reconnect_coalescing_witness :
    (NewClient sampleConfig).reconnect = 0
      ∧ (∀ pc ∈ ((Sys.init (NewClient sampleConfig) 3).run [0, 1, 1, 2, 0, 2]).pcs, pc = Pc.done)
      ∧ ((Sys.init (NewClient sampleConfig) 3).run [0, 1, 1, 2, 0, 2]).client.reconnect = 1 :=
  ⟨rfl, by decide,
   (reconnect_coalescing (NewClient sampleConfig) 3 [0, 1, 1, 2, 0, 2] rfl (by decide)).1
     (by decide)⟩

/-! ## Send -/

/-- C10.  `Send` returns the not-connected error exactly when no socket is active
(`connected` is false or the handle is nil), and then writes nothing and leaves the client
as it was.  Otherwise it performs one socket operation, the write of `msg.Encode()` to the
active socket, returns the error of that write (nil when it succeeds), and leaves the
client as it was: no reconnect request is queued and the connection state is the same. -/
theorem send_spec (js : Json) (write : Conn → List Byte → Option NetError) (c : Client)
    (msg : Message) :
    ((c.Send js write msg).err = some SendError.notConnected
        ↔ (c.connected = false ∨ c.conn = none))
      ∧ ((c.connected = false ∨ c.conn = none) →
          (c.Send js write msg).effects = [] ∧ (c.Send js write msg).client = c)
      ∧ (∀ k, c.connected = true → c.conn = some k →
          (c.Send js write msg).effects = [Effect.write k (msg.Encode js).1]
            ∧ (c.Send js write msg).err = (write k (msg.Encode js).1).map SendError.write
            ∧ (c.Send js write msg).client = c) := by
  cases hcon : c.connected <;> cases hk : c.conn with
  | none => simp [Client.Send, hcon, hk]
  | some k =>
    first
    | simp [Client.Send, hcon, hk]; done
    | (cases hw : write k (msg.Encode js).1 <;> simp [Client.Send, hcon, hk, hw])

/-! ## connect: address fallback -/

theorem dialled_append (a b : List Event) : dialled (a ++ b) = dialled a ++ dialled b := by
  induction a with
  | nil => rfl
  | cons e rest ih => cases e <;> simp [dialled, ih]

theorem client_reset_eq (c : Client) (hd : c.connected = false) (hc : c.conn = none)
    (k : Conn) :
    ({ ({ c with conn := some k, connected := true } : Client) with
        conn := none, connected := false } : Client) = c := by
  cases c
  simp only at hd hc
  subst hd hc
  rfl

/-- The loop of `connect` on a disconnected client: every candidate before the first good
one is dialled and dropped, the first good one is kept, and no later one is dialled; when
there is no good one all are dialled and the client is as before. -/
theorem connectLoop_spec (js : Json) (w : World) (c : Client) (hd : c.connected = false)
    (hc : c.conn = none) (addrs : List (List Byte)) :
    ∀ i : Nat,
      (∀ n addr k, addrs[n]? = some addr → c.candidate js w (i + n) addr = some k →
          (∀ m a, m < n → addrs[m]? = some a → c.candidate js w (i + m) a = none) →
          (c.connectLoop js w i addrs).client = { c with conn := some k, connected := true }
            ∧ (c.connectLoop js w i addrs).started = true
            ∧ dialled (c.connectLoop js w i addrs).events = addrs.take (n + 1))
        ∧ ((∀ m a, addrs[m]? = some a → c.candidate js w (i + m) a = none) →
          (c.connectLoop js w i addrs).client = c
            ∧ (c.connectLoop js w i addrs).started = false
            ∧ dialled (c.connectLoop js w i addrs).events = addrs) := by
  induction addrs with
  | nil =>
    intro i
    refine ⟨?_, ?_⟩
    · intro n addr k h
      simp at h
    · intro _
      exact ⟨rfl, rfl, rfl⟩
  | cons a rest ih =>
    intro i
    have hstep : c.candidate js w i a = none →
        (c.connectLoop js w i (a :: rest)).client = (c.connectLoop js w (i + 1) rest).client
          ∧ (c.connectLoop js w i (a :: rest)).started
              = (c.connectLoop js w (i + 1) rest).started
          ∧ dialled (c.connectLoop js w i (a :: rest)).events
              = a :: dialled (c.connectLoop js w (i + 1) rest).events := by
      intro hbad
      simp only [Client.candidate] at hbad
      rw [Client.connectLoop]
      cases hdial : w.dial i (network c.cfg.Hub.Protocol) a c.cfg.Hub.Port with
      | none => exact ⟨rfl, rfl, rfl⟩
      | some conn =>
        rw [hdial] at hbad
        have ha : ({ c with conn := some conn, connected := true } : Client).authData js w i
            = c.authData js w i := rfl
        cases hw : w.write conn (c.authData js w i) with
        | none =>
          simp only [hw] at hbad
          exact absurd hbad (by simp)
        | some e =>
          simp only [ha, hw, client_reset_eq c hd hc conn]
          refine ⟨?_, ?_, ?_⟩
          · trivial
          · trivial
          · simp [dialled]
    refine ⟨?_, ?_⟩
    · intro n addr k hn hgood hbad
      cases n with
      | zero =>
        simp only [List.getElem?_cons_zero, Option.some.injEq] at hn
        subst hn
        simp only [Nat.add_zero, Client.candidate] at hgood
        rw [Client.connectLoop]
        cases hdial : w.dial i (network c.cfg.Hub.Protocol) a c.cfg.Hub.Port with
        | none =>
          rw [hdial] at hgood
          exact absurd hgood (by simp)
        | some conn =>
          rw [hdial] at hgood
          have ha : ({ c with conn := some conn, connected := true } : Client).authData js w i
              = c.authData js w i := rfl
          cases hw : w.write conn (c.authData js w i) with
          | some e =>
            simp only [hw] at hgood
            exact absurd hgood (by simp)
          | none =>
            simp only [hw, Option.some.injEq] at hgood
            subst hgood
            simp only [ha, hw]
            refine ⟨?_, ?_, ?_⟩
            · trivial
            · trivial
            · cases w.staticInfo <;> simp [dialled]
      | succ n =>
        have h0 := hbad 0 a (Nat.succ_pos n) (by simp)
        rw [Nat.add_zero] at h0
        obtain ⟨e1, e2, e3⟩ := hstep h0
        have hrec := (ih (i + 1)).1 n addr k (by simpa using hn)
          (by rw [Nat.add_assoc, Nat.add_comm 1 n]; exact hgood)
          (by
            intro m b hm hb
            have := hbad (m + 1) b (by omega) (by simpa using hb)
            rw [Nat.add_assoc, Nat.add_comm 1 m]
            exact this)
        rw [e1, e2, e3, hrec.1, hrec.2.1, hrec.2.2]
        exact ⟨rfl, rfl, rfl⟩
    · intro hbad
      have h0 := hbad 0 a (by simp)
      rw [Nat.add_zero] at h0
      obtain ⟨e1, e2, e3⟩ := hstep h0
      have hrec := (ih (i + 1)).2
        (by
          intro m b hb
          have := hbad (m + 1) b (by simpa using hb)
          rw [Nat.add_assoc, Nat.add_comm 1 m]
          exact this)
      rw [e1, e2, e3, hrec.1, hrec.2.1, hrec.2.2]
      exact ⟨rfl, rfl, rfl⟩

/-- C11.  Address fallback order.  A call of `connect` on a disconnected client (flag
false, no socket, at most one request queued) dials the candidates `[primary] ++ backups`
in that order.  If candidate `n` is the first for which the dial and the AUTH write both
succeed, the call ends connected to its socket, has dialled exactly the candidates up to
`n` and no later one, and queues nothing.  If no candidate is good, all are dialled in
order and the call ends disconnected, without a socket, with exactly one reconnect
request pending. -/
theorem connect_fallback (js : Json) (w : World) (c : Client) (hd : c.connected = false)
    (hc : c.conn = none) (hq : c.reconnect ≤ reconnectCap) :
    (∀ n addr k, c.addresses[n]? = some addr → c.candidate js w n addr = some k →
        (∀ m a, m < n → c.addresses[m]? = some a → c.candidate js w m a = none) →
        (c.connect js w).client = { c with conn := some k, connected := true }
          ∧ (c.connect js w).started = true
          ∧ dialled (c.connect js w).events = c.addresses.take (n + 1))
      ∧ ((∀ m a, c.addresses[m]? = some a → c.candidate js w m a = none) →
        (c.connect js w).client = { c with reconnect := 1 }
          ∧ (c.connect js w).client.connected = false
          ∧ (c.connect js w).client.conn = none
          ∧ (c.connect js w).client.reconnect = 1
          ∧ (c.connect js w).started = false
          ∧ dialled (c.connect js w).events = c.addresses) := by
  have hloop := connectLoop_spec js w c hd hc c.addresses 0
  simp only [Nat.zero_add] at hloop
  refine ⟨?_, ?_⟩
  · intro n addr k hn hgood hbad
    obtain ⟨h1, h2, h3⟩ := hloop.1 n addr k hn hgood hbad
    have e : c.connect js w = c.connectLoop js w 0 c.addresses := by
      simp only [Client.connect, hd, Bool.false_eq_true, if_false, h2, if_true]
    rw [e]
    exact ⟨h1, h2, h3⟩
  · intro hbad
    obtain ⟨h1, h2, h3⟩ := hloop.2 hbad
    have e : c.connect js w
        = { client := { c with reconnect := 1 },
            events := (c.connectLoop js w 0 c.addresses).events
              ++ [Event.sleep c.cfg.Agent.ReconnectInterval],
            started := false } := by
      simp only [Client.connect, hd, Bool.false_eq_true, if_false, h2, h1,
        trySend_le c.reconnect hq]
    rw [e]
    refine ⟨rfl, hd, hc, rfl, rfl, ?_⟩
    simp only [dialled_append, h3]
    simp [dialled]

/-- With `sampleWorld` the primary address refuses and the backup accepts: the client ends
connected to socket 7 after dialling `hub` and then `backup`.  With `deadWorld` nothing
accepts: the client ends disconnected with one request pending. -/
theorem connect_fallback_witness :
    ((NewClient sampleConfig).connect sampleJson sampleWorld).client.conn = some 7
      ∧ ((NewClient sampleConfig).connect sampleJson sampleWorld).client.connected = true
      ∧ dialled ((NewClient sampleConfig).connect sampleJson sampleWorld).events
          = [ascii "hub", ascii "backup"]
      ∧ ((NewClient sampleConfig).connect sampleJson deadWorld).client.conn = none
      ∧ ((NewClient sampleConfig).connect sampleJson deadWorld).client.reconnect = 1 := by
  have h := connect_fallback sampleJson sampleWorld (NewClient sampleConfig) rfl rfl
    (by decide)
  have hg := h.1 1 (ascii "backup") 7 rfl rfl
    (by
      intro m a hm ha
      obtain rfl : m = 0 := by omega
      have : a = ascii "hub" := by
        simp only [Client.addresses, NewClient, sampleConfig, List.singleton_append,
          List.getElem?_cons_zero, Option.some.injEq] at ha
        exact ha.symm
      subst this
      rfl)
  have hb := (connect_fallback sampleJson deadWorld (NewClient sampleConfig) rfl rfl
    (by decide)).2 (by intro m a _; rfl)
  refine ⟨?_, ?_, ?_, hb.2.2.1, hb.2.2.2.1⟩
  · rw [hg.1]
  · rw [hg.1]
  · rw [hg.2.2]
    rfl

/-! ## Consistency of the connection state -/

theorem consistent_of_disconnected (c : Client) (hd : c.connected = false) (hc : c.conn = none) :
    c.Consistent := by
  simp [Client.Consistent, hd, hc]

theorem connectLoop_consistent (js : Json) (w : World) (addrs : List (List Byte)) :
    ∀ (i : Nat) (c : Client), c.Consistent → (c.connectLoop js w i addrs).client.Consistent := by
  induction addrs with
  | nil =>
    intro i c h
    exact h
  | cons a rest ih =>
    intro i c h
    rw [Client.connectLoop]
    cases hdial : w.dial i (network c.cfg.Hub.Protocol) a c.cfg.Hub.Port with
    | none => exact ih (i + 1) c h
    | some conn =>
      simp only
      split
      · exact ih (i + 1) _ (consistent_of_disconnected _ rfl rfl)
      · simp [Client.Consistent]

theorem connect_consistent (js : Json) (w : World) (c : Client) (h : c.Consistent) :
    (c.connect js w).client.Consistent := by
  have hl := connectLoop_consistent js w c.addresses 0 c h
  simp only [Client.connect]
  split
  · exact h
  · split
    · exact hl
    · simpa [Client.Consistent] using hl

theorem handleDisconnect_consistent (c : Client) : c.handleDisconnect.1.Consistent := by
  cases hc : c.conn <;>
    simp [Client.handleDisconnect, Client.handleDisconnectLocked, Client.handleDisconnectSignal,
      Client.Consistent, hc]

theorem teardown_disconnected (c : Client) :
    c.teardown.1.connected = false ∧ c.teardown.1.conn = none := by
  cases hc : c.conn <;> cases hh : c.heartbeat <;>
    simp [Client.teardown, Client.stopClose, Client.stopLocked, Client.stopHeartbeat,
      Client.stopWait, hc, hh]

theorem stop_consistent (c : Client) (h : c.Consistent) : c.Stop.1.Consistent := by
  simp only [Client.Stop]
  split
  · exact h
  · have ht := teardown_disconnected c
    simp [Client.Consistent, ht.1, ht.2]

theorem apply_consistent (js : Json) (c : Client) (op : Op) (h : c.Consistent) :
    (c.apply js op).Consistent := by
  cases op with
  | connect w => exact connect_consistent js w c h
  | handleDisconnect => exact handleDisconnect_consistent c
  | stop => exact stop_consistent c h

theorem foldl_apply_consistent (js : Json) (ops : List Op) :
    ∀ c : Client, c.Consistent → (ops.foldl (Client.apply js) c).Consistent := by
  induction ops with
  | nil => intro c h; exact h
  | cons op rest ih => intro c h; exact ih _ (apply_consistent js c op h)

/-- C16.  Connection-state consistency.  From `NewClient`, after any sequence of complete
executions of `connect` (each with its own dial and write outcomes), `handleDisconnect`
and `Stop`, the connected flag is true exactly when the connection handle is not nil.  A
call of `connect` on a client whose flag is already true returns the client as it is and
produces no event: nothing is dialled and no second socket is opened. -/
theorem connection_state_consistent (js : Json) (cfg : Config) (ops : List Op) :
    ((ops.foldl (Client.apply js) (NewClient cfg)).connected = true
        ↔ (ops.foldl (Client.apply js) (NewClient cfg)).conn ≠ none)
      ∧ (∀ (c : Client) (w : World), c.connected = true →
          (c.connect js w).client = c ∧ (c.connect js w).events = []
            ∧ dialled (c.connect js w).events = []
            ∧ (c.connect js w).started = false) := by
  refine ⟨foldl_apply_consistent js ops (NewClient cfg)
    (consistent_of_disconnected _ rfl rfl), ?_⟩
  intro c w hc
  simp [Client.connect, hc, dialled]

/-! ## Draining the buffer -/

theorem beWord_append (f rest : List Byte) (i : Nat) (h : i + 4 ≤ f.length) :
    beWord (f ++ rest) i = beWord f i := by
  simp only [beWord, List.getD_eq_getElem?_getD]
  rw [List.getElem?_append_left (by omega), List.getElem?_append_left (by omega),
    List.getElem?_append_left (by omega), List.getElem?_append_left (by omega)]

/-- Parsing a buffer that starts with a complete frame returns the message of that frame
and leaves the bytes after it. -/
theorem parseMessage_isFrame (js : Json) (f rest : List Byte) (hf : IsFrame f) :
    ({ buffer := f ++ rest } : MessageParser).HasCompleteMessage = true
      ∧ ({ buffer := f ++ rest } : MessageParser).ParseMessage js
        = (some (frameMessage js f), { buffer := rest }) := by
  obtain ⟨h12, hlen⟩ := hf
  have hL : beWord (f ++ rest) 4 = beWord f 4 := beWord_append f rest 4 (by omega)
  have hS : beWord (f ++ rest) 8 = beWord f 8 := beWord_append f rest 8 (by omega)
  have hc : ({ buffer := f ++ rest } : MessageParser).HasCompleteMessage = true := by
    rw [hasCompleteMessage_iff]
    simp only [hL, List.length_append]
    omega
  refine ⟨hc, ?_⟩
  rw [parseMessage_of_complete js _ hc]
  simp only [hL, hS, frameHeader, frameMessage]
  have hT : slice (f ++ rest) 0 4 = slice f 0 4 := by
    simp only [slice, List.drop_zero, Nat.sub_zero]
    rw [List.take_append_of_le_length (by omega)]
  have hP : slice (f ++ rest) 12 (12 + beWord f 4) = f.drop 12 := by
    simp only [slice, Nat.add_sub_cancel_left]
    rw [List.drop_append_of_le_length h12]
    exact List.take_left' (by rw [List.length_drop]; omega)
  have hD : (f ++ rest).drop (12 + beWord f 4) = rest := List.drop_left' hlen
  rw [hT, hP, hD]

theorem drain_frames_aux (js : Json) (t : List Byte)
    (ht : ({ buffer := t } : MessageParser).HasCompleteMessage = false)
    (frames : List (List Byte)) :
    ∀ fuel : Nat, (∀ f ∈ frames, IsFrame f) → frames.length ≤ fuel →
      MessageParser.drain js fuel { buffer := frames.flatten ++ t }
        = some (frames.map (fun f => some (frameMessage js f)), { buffer := t }) := by
  induction frames with
  | nil =>
    intro fuel _ _
    cases fuel <;> simp [MessageParser.drain, ht]
  | cons f rest ih =>
    intro fuel hf hfuel
    cases fuel with
    | zero => simp at hfuel
    | succ fuel =>
      have hp := parseMessage_isFrame js f (rest.flatten ++ t) (hf f (List.mem_cons_self _ _))
      have hrec := ih fuel (fun g hg => hf g (List.mem_cons_of_mem _ hg))
        (by simpa using hfuel)
      simp only [List.flatten_cons, List.append_assoc, List.map_cons]
      rw [MessageParser.drain]
      simp only [hp.1, if_true, hp.2, hrec]

/-- C15, amended.  Draining many frames.  The buffer holds `k` complete frames followed by
a tail on which `HasCompleteMessage` is false (it does not start with a complete frame).  The loop that calls `ParseMessage` while
`HasCompleteMessage` is true ends within any bound of at least `k` rounds; it makes
exactly `k` calls, each returns a message, the headers of the messages (four byte type,
length, timestamp) are those of the frames in order, and the buffer left is the tail. -/
theorem drain_frames (js : Json) (frames : List (List Byte)) (t : List Byte) (fuel : Nat)
    (hf : ∀ f ∈ frames, IsFrame f)
    (ht : ({ buffer := t } : MessageParser).HasCompleteMessage = false)
    (hfuel : frames.length ≤ fuel) :
    ∃ msgs : List Message,
      MessageParser.drain js fuel { buffer := frames.flatten ++ t }
          = some (msgs.map some, { buffer := t })
        ∧ msgs.length = frames.length
        ∧ msgs.map Message.Header = frames.map frameHeader
        ∧ ({ buffer := t } : MessageParser).ParseMessage js = (none, { buffer := t }) := by
  refine ⟨frames.map (frameMessage js), ?_, ?_, ?_, ?_⟩
  · rw [drain_frames_aux js t ht frames fuel hf hfuel]
    simp [List.map_map, Function.comp]
  · simp
  · simp [List.map_map, Function.comp, frameMessage]
  · exact parseMessage_of_incomplete js _ ht

/-- Two frames, one without payload and one with three payload bytes, followed by two
bytes: two messages come back, with the headers of the two frames, and the two bytes
stay. -/
theorem drain_frames_witness :
    IsFrame (ascii "PING" ++ [0, 0, 0, 0] ++ [0, 0, 0, 7])
      ∧ IsFrame (ascii "PONG" ++ [0, 0, 0, 3] ++ [0, 0, 0, 8] ++ [1, 2, 3])
      ∧ ∃ msgs : List Message,
          MessageParser.drain sampleJson 2
              { buffer := [ascii "PING" ++ [0, 0, 0, 0] ++ [0, 0, 0, 7],
                  ascii "PONG" ++ [0, 0, 0, 3] ++ [0, 0, 0, 8] ++ [1, 2, 3]].flatten ++ [9, 8] }
            = some (msgs.map some, { buffer := [9, 8] })
          ∧ msgs.map Message.Header
            = [{ Type_ := ascii "PING", Length := 0, Timestamp := 7 },
               { Type_ := ascii "PONG", Length := 3, Timestamp := 8 }] :=
  ⟨by decide, by decide,
   (drain_frames sampleJson
      [ascii "PING" ++ [0, 0, 0, 0] ++ [0, 0, 0, 7],
       ascii "PONG" ++ [0, 0, 0, 3] ++ [0, 0, 0, 8] ++ [1, 2, 3]] [9, 8] 2
      (by decide) (by decide) (by decide)).imp
     fun _ h => ⟨h.1, by rw [h.2.2.1]; decide⟩⟩

/-! ## Idempotent shutdown -/

theorem set_getElem? (l : List StopPc) (i j : Nat) (a ph : StopPc) (hi : l[i]? = some ph) :
    (l.set i a)[j]? = if i = j then some a else l[j]? := by
  have hlt : i < l.length := (List.getElem?_eq_some.1 hi).1
  simp only [List.getElem?_set, hlt, if_true]

/-- A call inside the teardown runs a statement and moves on: the invariant is kept. -/
theorem StopSys.advance_inv (c : Client) (s : StopSys) (i : Nat) (ph ph1 : StopPc)
    (r : Client × List Event) (h : s.Inv c) (hi : s.pcs[i]? = some ph)
    (ho : ph.owner = true) (ho1 : ph1.owner = true)
    (hr : (r.1, s.log ++ r.2) = stopStateAt c ph1) (hd : r.1.shutdownOnce = false) :
    (s.advance i r ph1).Inv c := by
  obtain ⟨hbusy, _, _, huniq⟩ := h.owner i ph hi ho
  have hget : ∀ j, (s.advance i r ph1).pcs[j]? = if i = j then some ph1 else s.pcs[j]? :=
    fun j => set_getElem? s.pcs i j ph1 ph hi
  refine ⟨?_, ?_, ?_, ?_, ?_⟩
  · intro j q hj hq
    rw [hget] at hj
    refine ⟨hbusy, hd, ?_, ?_⟩
    · by_cases hij : i = j
      · simp only [hij, if_true, Option.some.injEq] at hj
        subst hj
        exact hr
      · simp only [hij, if_false] at hj
        exact absurd (huniq j q hj hq) (fun e => hij e.symm)
    · intro j1 q1 hj1 hq1
      rw [hget] at hj1
      have e1 : j1 = i := by
        by_cases h1 : i = j1
        · exact h1.symm
        · simp only [h1, if_false] at hj1
          exact huniq j1 q1 hj1 hq1
      have e2 : j = i := by
        by_cases h2 : i = j
        · exact h2.symm
        · simp only [h2, if_false] at hj
          exact huniq j q hj hq
      rw [e1, e2]
  · intro hb
    have : (s.advance i r ph1).busy = s.busy := rfl
    rw [this, hbusy] at hb
    exact absurd hb (by decide)
  · intro j hj
    rw [hget] at hj
    by_cases hij : i = j
    · simp only [hij, if_true, Option.some.injEq] at hj
      subst hj
      exact absurd ho1 (by decide)
    · simp only [hij, if_false] at hj
      have := h.returned j hj
      have hnd := (h.owner i ph hi ho).2.1
      rw [hnd] at this
      exact absurd this (by decide)
  · intro hdone
    have : (s.advance i r ph1).client.shutdownOnce = r.1.shutdownOnce := rfl
    rw [this, hd] at hdone
    exact absurd hdone (by decide)
  · intro _
    exact ⟨i, ph1, by rw [hget]; simp, ho1⟩

theorem stopClose_once (c : Client) : c.stopClose.1.shutdownOnce = c.shutdownOnce := rfl

theorem stopLocked_once (c : Client) : c.stopLocked.1.shutdownOnce = c.shutdownOnce := by
  cases hc : c.conn <;> simp [Client.stopLocked, hc]

theorem stopHeartbeat_once (c : Client) : c.stopHeartbeat.1.shutdownOnce = c.shutdownOnce := by
  cases hc : c.heartbeat <;> simp [Client.stopHeartbeat, hc]

theorem stopWait_once (c : Client) : c.stopWait.1.shutdownOnce = c.shutdownOnce := rfl

theorem StopSys.stopStep_inv (c : Client) (s : StopSys) (i : Nat) (h : s.Inv c) :
    (s.step i).Inv c := by
  unfold StopSys.step
  split
  · rename_i hi
    have hget : ∀ (a : StopPc) (j : Nat),
        (s.pcs.set i a)[j]? = if i = j then some a else s.pcs[j]? :=
      fun a j => set_getElem? s.pcs i j a StopPc.entry hi
    cases hdone : s.client.shutdownOnce with
    | true =>
      simp only [if_true]
      refine ⟨?_, ?_, ?_, ?_, ?_⟩
      · intro j q hj hq
        simp only [hget] at hj
        by_cases hij : i = j
        · simp only [hij, if_true, Option.some.injEq] at hj
          subst hj
          exact absurd hq (by decide)
        · simp only [hij, if_false] at hj
          have := (h.owner j q hj hq).2.1
          rw [hdone] at this
          exact absurd this (by decide)
      · intro _ hnd
        simp only at hnd
        rw [hdone] at hnd
        exact absurd hnd (by decide)
      · intro j _
        exact hdone
      · intro _
        exact h.done hdone
      · intro hb
        simp only at hb
        rw [(h.done hdone).1] at hb
        exact absurd hb (by decide)
    | false =>
      simp only [Bool.false_eq_true, if_false]
      cases hb : s.busy with
      | true =>
        simp only [if_true]
        exact h
      | false =>
        simp only [Bool.false_eq_true, if_false]
        obtain ⟨hc, hl⟩ := h.idle hb hdone
        have hnoowner : ∀ (j : Nat) (q : StopPc), s.pcs[j]? = some q → q.owner = true → False := by
          intro j q hj hq
          have := (h.owner j q hj hq).1
          rw [hb] at this
          exact absurd this (by decide)
        refine ⟨?_, ?_, ?_, ?_, ?_⟩
        · intro j q hj hq
          simp only [hget] at hj
          by_cases hij : i = j
          · simp only [hij, if_true, Option.some.injEq] at hj
            subst hj
            refine ⟨rfl, hdone, ?_, ?_⟩
            · simp only [stopStateAt, hc, hl]
            · intro j1 q1 hj1 hq1
              simp only [hget] at hj1
              by_cases h1 : i = j1
              · rw [← h1, hij]
              · simp only [h1, if_false] at hj1
                exact absurd (hnoowner j1 q1 hj1 hq1) id
          · simp only [hij, if_false] at hj
            exact absurd (hnoowner j q hj hq) id
        · intro hb1
          simp only at hb1
          exact absurd hb1 (by decide)
        · intro j hj
          simp only [hget] at hj
          by_cases hij : i = j
          · simp only [hij, if_true, Option.some.injEq] at hj
            exact absurd hj (by decide)
          · simp only [hij, if_false] at hj
            have := h.returned j hj
            rw [hdone] at this
            exact absurd this (by decide)
        · intro hd1
          simp only at hd1
          rw [hdone] at hd1
          exact absurd hd1 (by decide)
        · intro _
          exact ⟨i, StopPc.closeStop, by simp only [hget, if_true], rfl⟩
  · rename_i hi
    obtain ⟨_, hnd, hst, _⟩ := h.owner i _ hi rfl
    have e1 : s.client = c := congrArg Prod.fst hst
    have e2 : s.log = [] := congrArg Prod.snd hst
    exact StopSys.advance_inv c s i StopPc.closeStop StopPc.locked _ h hi rfl rfl
      (by rw [e1, e2]; rfl) (by rw [stopClose_once]; exact hnd)
  · rename_i hi
    obtain ⟨_, hnd, hst, _⟩ := h.owner i _ hi rfl
    have e1 : s.client = c.stopClose.1 := congrArg Prod.fst hst
    have e2 : s.log = c.stopClose.2 := congrArg Prod.snd hst
    exact StopSys.advance_inv c s i StopPc.locked StopPc.heartbeat _ h hi rfl rfl
      (by rw [e1, e2]; rfl) (by rw [stopLocked_once]; exact hnd)
  · rename_i hi
    obtain ⟨_, hnd, hst, _⟩ := h.owner i _ hi rfl
    have e1 : s.client = c.stopClose.1.stopLocked.1 := congrArg Prod.fst hst
    have e2 : s.log = c.stopClose.2 ++ c.stopClose.1.stopLocked.2 := congrArg Prod.snd hst
    exact StopSys.advance_inv c s i StopPc.heartbeat StopPc.wait _ h hi rfl rfl
      (by rw [e1, e2]; rfl) (by rw [stopHeartbeat_once]; exact hnd)
  · rename_i hi
    obtain ⟨_, hnd, hst, _⟩ := h.owner i _ hi rfl
    have e1 : s.client = c.stopClose.1.stopLocked.1.stopHeartbeat.1 := congrArg Prod.fst hst
    have e2 : s.log = c.stopClose.2 ++ c.stopClose.1.stopLocked.2
        ++ c.stopClose.1.stopLocked.1.stopHeartbeat.2 := congrArg Prod.snd hst
    exact StopSys.advance_inv c s i StopPc.wait StopPc.finish _ h hi rfl rfl
      (by rw [e1, e2]; rfl) (by rw [stopWait_once]; exact hnd)
  · rename_i hi
    obtain ⟨_, hnd, hst, huniq⟩ := h.owner i _ hi rfl
    have e1 : s.client = c.teardown.1 := congrArg Prod.fst hst
    have e2 : s.log = c.teardown.2 := congrArg Prod.snd hst
    have hget : ∀ j : Nat,
        (s.pcs.set i StopPc.returned)[j]? = if i = j then some StopPc.returned else s.pcs[j]? :=
      fun j => set_getElem? s.pcs i j StopPc.returned StopPc.finish hi
    refine ⟨?_, ?_, ?_, ?_, ?_⟩
    · intro j q hj hq
      simp only [hget] at hj
      by_cases hij : i = j
      · simp only [hij, if_true, Option.some.injEq] at hj
        subst hj
        exact absurd hq (by decide)
      · simp only [hij, if_false] at hj
        exact absurd (huniq j q hj hq) (fun e => hij e.symm)
    · intro _ hd1
      simp only at hd1
      exact absurd hd1 (by decide)
    · intro j _
      rfl
    · intro _
      refine ⟨rfl, ?_⟩
      simp only [stopStateAt, e1, e2]
    · intro hb
      simp only at hb
      exact absurd hb (by decide)
  · exact h

theorem StopSys.stopRun_inv (c : Client) (sched : List Nat) :
    ∀ s : StopSys, s.Inv c → (s.run sched).Inv c := by
  induction sched with
  | nil => intro s h; exact h
  | cons i rest ih => intro s h; exact ih (s.step i) (StopSys.stopStep_inv c s i h)

theorem StopSys.stopInit_inv (c : Client) (n : Nat) (hfresh : c.shutdownOnce = false) :
    (StopSys.init c n).Inv c := by
  have hpc : ∀ (j : Nat) (q : StopPc), (StopSys.init c n).pcs[j]? = some q → q = StopPc.entry := by
    intro j q hj
    simp only [StopSys.init, List.getElem?_replicate] at hj
    split at hj
    · exact (Option.some.inj hj).symm
    · exact absurd hj (by simp)
  refine ⟨?_, ?_, ?_, ?_, ?_⟩
  · intro j q hj hq
    rw [hpc j q hj] at hq
    exact absurd hq (by decide)
  · intro _ _
    exact ⟨rfl, rfl⟩
  · intro j hj
    exact absurd (hpc j _ hj) (by decide)
  · intro hd
    have : (StopSys.init c n).client.shutdownOnce = c.shutdownOnce := rfl
    rw [this, hfresh] at hd
    exact absurd hd (by decide)
  · intro hb
    simp only [StopSys.init] at hb
    exact absurd hb (by decide)

theorem stopStateAt_log_prefix (c : Client) (ph : StopPc) :
    (stopStateAt c ph).2 <+: c.teardown.2 := by
  cases ph <;>
    simp [stopStateAt, Client.teardown, List.append_assoc, List.prefix_append,
      List.prefix_append_right_inj]

theorem teardown_counts (c : Client) :
    c.teardown.2.count Event.closeStop = 1 ∧ c.teardown.2.count Event.waitWorkers = 1 := by
  cases hc : c.conn <;> cases hh : c.heartbeat <;>
    simp [Client.teardown, Client.stopClose, Client.stopLocked, Client.stopHeartbeat,
      Client.stopWait, hc, hh, List.count_cons]

/-- C12.  Idempotent shutdown.  `n` calls of `Stop` run on a client whose `Once` has not
fired and take their steps in the order `sched`.  The events of the state reached are a
prefix of the events of one teardown, so no statement of the teardown (closing the stop
signal, closing and clearing the socket, clearing the connected flag, stopping the
heartbeat timer, waiting for the workers) has run twice; when some call has returned the
teardown has run in full, once, and the client is the client after one `Stop`.  A call of
`Stop` on a client whose `Once` has fired changes nothing and does nothing. -/
theorem stop_idempotent (c : Client) (n : Nat) (sched : List Nat)
    (hfresh : c.shutdownOnce = false) :
    ((StopSys.init c n).run sched).log <+: c.teardown.2
      ∧ (StopPc.returned ∈ ((StopSys.init c n).run sched).pcs →
          ((StopSys.init c n).run sched).log = c.teardown.2
            ∧ ((StopSys.init c n).run sched).client = c.Stop.1)
      ∧ c.teardown.2.count Event.closeStop = 1
      ∧ c.teardown.2.count Event.waitWorkers = 1
      ∧ c.Stop.2 = c.teardown.2
      ∧ c.Stop.1.Stop = (c.Stop.1, [])
      ∧ (∀ c1 : Client, c1.shutdownOnce = true → c1.Stop = (c1, [])) := by
  have hinv := StopSys.stopRun_inv c sched (StopSys.init c n) (StopSys.stopInit_inv c n hfresh)
  have hstop : c.Stop = ({ c.teardown.1 with shutdownOnce := true }, c.teardown.2) := by
    simp only [Client.Stop, hfresh, Bool.false_eq_true, if_false]
  have hagain : ∀ c1 : Client, c1.shutdownOnce = true → c1.Stop = (c1, []) := by
    intro c1 h1
    simp only [Client.Stop, h1, if_true]
  refine ⟨?_, ?_, (teardown_counts c).1, (teardown_counts c).2, ?_, ?_, hagain⟩
  · cases hb : ((StopSys.init c n).run sched).busy with
    | true =>
      obtain ⟨i, ph, hi, ho⟩ := hinv.held hb
      have hst := (hinv.owner i ph hi ho).2.2.1
      have : ((StopSys.init c n).run sched).log = (stopStateAt c ph).2 := congrArg Prod.snd hst
      rw [this]
      exact stopStateAt_log_prefix c ph
    | false =>
      cases hd : ((StopSys.init c n).run sched).client.shutdownOnce with
      | false =>
        rw [(hinv.idle hb hd).2]
        exact List.nil_prefix
      | true =>
        have : ((StopSys.init c n).run sched).log = (stopStateAt c StopPc.returned).2 :=
          congrArg Prod.snd (hinv.done hd).2
        rw [this]
        exact stopStateAt_log_prefix c StopPc.returned
  · intro hret
    obtain ⟨i, hi⟩ := List.mem_iff_getElem?.1 hret
    have hd := hinv.returned i hi
    have hst := (hinv.done hd).2
    refine ⟨congrArg Prod.snd hst, ?_⟩
    rw [hstop]
    exact congrArg Prod.fst hst
  · rw [hstop]
  · exact hagain _ (by rw [hstop])

/-- Two calls of `Stop` on a connected client.  Call 0 enters, call 1 finds the lock held
and waits, call 0 runs the teardown and marks the `Once` done, call 1 returns: the four
events of the teardown are there once. -/
theorem stop_idempotent_witness :
    sampleConnected.shutdownOnce = false
      ∧ ((StopSys.init sampleConnected 2).run [0, 1, 0, 0, 1, 0, 0, 0, 1]).pcs
        = [StopPc.returned, StopPc.returned]
      ∧ ((StopSys.init sampleConnected 2).run [0, 1, 0, 0, 1, 0, 0, 0, 1]).log
        = [Event.closeStop, Event.sock (Effect.close 7), Event.stopTicker, Event.waitWorkers]
      ∧ ((StopSys.init sampleConnected 2).run [0, 1, 0, 0, 1, 0, 0, 0, 1]).log
        = sampleConnected.teardown.2 :=
  ⟨rfl, by decide, by decide,
   ((stop_idempotent sampleConnected 2 [0, 1, 0, 0, 1, 0, 0, 0, 1] rfl).2.1 (by decide)).1⟩

/-! ## Frames after the stop signal -/

/-- C13, at the failing input.  `Start` has queued the first reconnect request when `Stop`
is called.  First run: `Stop` closes the stop signal; the `select` of `connectionManager`
finds both of its cases ready and takes `<-c.reconnect`; `connect`, which does not look at
the stop signal, dials `hub` and `backup` and writes the AUTH frame to socket 7, all after
the stop signal was closed.  Second run: the same round of `connectionManager` comes after
the locked part of `Stop`; the workers then see the stop signal and return, `Stop` returns,
and the client is left connected to socket 7, so that a later `Send` writes one more
frame. -/
theorem frame_written_after_stop :
    (Node.run sampleJson
        [Label.start, Label.stop 0, Label.stop 0, Label.managerReconnect sampleWorld]
        (Node.init (NewClient sampleConfig) 1)).map
        (fun s => (s.client.stop, framesAfterStop s.log, dialsAfterStop s.log))
      = some (true, [(7, (NewClient sampleConfig).authData sampleJson sampleWorld 1)],
              [ascii "hub", ascii "backup"])
      ∧ (Node.run sampleJson
          [Label.start, Label.stop 0, Label.stop 0, Label.stop 0, Label.stop 0,
           Label.managerReconnect sampleWorld, Label.managerStop, Label.heartbeatStop,
           Label.receiverRound none, Label.reporterStop, Label.stop 0, Label.stop 0,
           Label.send sampleWorld
             (NewMessage MessageTypeHeartbeat (Payload.heartbeat { UUID := ascii "u1" }) 5)]
          (Node.init (NewClient sampleConfig) 1)).map
          (fun s => (s.stops, s.working, s.client.connected, s.client.conn,
            (framesAfterStop s.log).map (fun f => (f.1, f.2.take 4))))
        = some ([StopPc.returned], false, true, some 7,
                [(7, ascii "AUTH"), (7, ascii "HEAR")]) := by
  constructor
  · decide
  · rfl

/-! ## Reporters across reconnects -/

theorem Node.run_append (js : Json) (l1 l2 : List Label) :
    ∀ s : Node, Node.run js (l1 ++ l2) s = (Node.run js l1 s).bind (Node.run js l2) := by
  induction l1 with
  | nil => intro s; rfl
  | cons l rest ih =>
    intro s
    simp only [List.cons_append, Node.run]
    cases s.step js l with
    | none => rfl
    | some s1 => exact ih s1

theorem connect_goodWorld (js : Json) (c : Client) (hd : c.connected = false) :
    (c.connect js goodWorld).client = { c with conn := some 7, connected := true }
      ∧ (c.connect js goodWorld).started = true := by
  simp [Client.connect, hd, Client.addresses, Client.connectLoop, goodWorld]

/-- The round of `connectionManager` that takes a pending request while the client is
disconnected, in `goodWorld`: the client connects and one more receive loop and one more
reporter run. -/
theorem Node.step_managerReconnect_good (js : Json) (s : Node) (hm : s.manager = true)
    (hq : s.client.reconnect = 1) (hd : s.client.connected = false)
    (hsi : 0 < seconds s.client.cfg.Agent.SystemInfoInterval) :
    ∃ s1, s.step js (Label.managerReconnect goodWorld) = some s1
      ∧ s1.manager = true ∧ s1.receivers = s.receivers + 1 ∧ s1.reporters = s.reporters + 1
      ∧ s1.client.connected = true ∧ s1.client.conn = some 7 ∧ s1.client.reconnect = 0
      ∧ s1.client.stop = s.client.stop ∧ s1.client.cfg = s.client.cfg := by
  have hg := connect_goodWorld js { s.client with reconnect := s.client.reconnect - 1 } hd
  obtain ⟨hc, hs⟩ := hg
  dsimp only at hc hs
  have hcond : (s.manager && decide (0 < s.client.reconnect)) = true := by
    rw [hm, hq]
    decide
  have hper : ¬ ((true && decide (seconds s.client.cfg.Agent.SystemInfoInterval ≤ 0)) = true) := by
    simp only [Bool.true_and, decide_eq_true_eq, not_le]
    exact hsi
  dsimp only [Node.step]
  rw [if_pos hcond, hs, hc, if_neg hper]
  refine ⟨_, rfl, hm, rfl, rfl, rfl, rfl, ?_, rfl, rfl⟩
  dsimp only
  rw [hq]

/-- The round of `receiveLoop` in which the read fails on a connected client: the
disconnect is handled and the goroutine returns. -/
theorem Node.step_receiverRound_fail (js : Json) (s : Node) (hr : 0 < s.receivers)
    (h4 : s.client.connected = true) (k : Conn) (h5 : s.client.conn = some k)
    (h7 : s.client.stop = false) :
    ∃ s1, s.step js (Label.receiverRound none) = some s1
      ∧ s1.manager = s.manager ∧ s1.receivers = s.receivers - 1 ∧ s1.reporters = s.reporters
      ∧ s1.client = s.client.handleDisconnect.1 := by
  have hrr : s.client.receiveRound js none
      = (s.client.handleDisconnect.1, s.client.handleDisconnect.2, true) := by
    simp [Client.receiveRound, h7, h4, h5]
  dsimp only [Node.step]
  rw [if_pos hr, hrr]
  exact ⟨_, rfl, rfl, rfl, rfl, rfl⟩

/-- A failed read followed by a reconnect: the receive loop of the old connection returns,
a new one starts, and one more reporter runs. -/
theorem Node.cycle (js : Json) (m : Nat) (s : Node) (h : s.Connected m) :
    ∃ s1, Node.run js [Label.receiverRound none, Label.managerReconnect goodWorld] s = some s1
      ∧ s1.Connected (m + 1) := by
  obtain ⟨h1, h2, h3, h4, h5, h6, h7, h8⟩ := h
  obtain ⟨s1, e1, m1, r1, p1, c1⟩ :=
    Node.step_receiverRound_fail js s (by omega) h4 7 h5 h7
  have hq : s1.client.reconnect = 1 := by
    rw [c1]
    simp [Client.handleDisconnect, Client.handleDisconnectSignal,
      handleDisconnectLocked_reconnect, h6, trySend, reconnectCap]
  have hdc : s1.client.connected = false := by
    rw [c1]
    simp [Client.handleDisconnect, Client.handleDisconnectSignal, Client.handleDisconnectLocked,
      h5]
  have hst : s1.client.stop = false := by
    rw [c1]
    simp [Client.handleDisconnect, Client.handleDisconnectSignal, Client.handleDisconnectLocked,
      h5, h7]
  have hcfg : s1.client.cfg = s.client.cfg := by
    rw [c1]
    simp [Client.handleDisconnect, Client.handleDisconnectSignal, Client.handleDisconnectLocked,
      h5]
  obtain ⟨s2, e2, m2, r2, p2, c2, k2, q2, t2, g2⟩ :=
    Node.step_managerReconnect_good js s1 (by rw [m1, h1]) hq hdc (by rw [hcfg]; exact h8)
  refine ⟨s2, ?_, m2, ?_, ?_, c2, k2, q2, ?_, ?_⟩
  · simp only [Node.run, e1, e2]
  · rw [r2, r1, h2]
  · rw [p2, p1, h3]
  · rw [t2, hst]
  · rw [g2, hcfg]
    exact h8

/-- C14, at the failing input.  The periods of the two tickers are positive.  The client
starts and connects; then its connection is lost `k` times, each time by a failed read,
and each time it reconnects.  The steps can all be taken, the stop signal is never closed,
and afterwards one receive loop runs but `k + 1` reporters do: the reporter of every
earlier connection is still running. -/
theorem reporters_grow (js : Json) (cfg : Config) (k : Nat)
    (hsi : 0 < seconds cfg.Agent.SystemInfoInterval)
    (hhb : 0 < seconds cfg.Agent.HeartbeatInterval) :
    ∃ s, Node.run js
          (Label.start :: Label.managerReconnect goodWorld :: reconnectCycles goodWorld k)
          (Node.init (NewClient cfg) 0) = some s
      ∧ s.reporters = k + 1 ∧ s.receivers = 1 ∧ s.client.stop = false
      ∧ s.client.connected = true := by
  have hcycles : ∀ (k m : Nat) (s : Node), s.Connected m →
      ∃ s1, Node.run js (reconnectCycles goodWorld k) s = some s1 ∧ s1.Connected (m + k) := by
    intro k
    induction k with
    | zero =>
      intro m s h
      exact ⟨s, rfl, h⟩
    | succ k ih =>
      intro m s h
      obtain ⟨s1, hs1, hc1⟩ := Node.cycle js m s h
      obtain ⟨s2, hs2, hc2⟩ := ih (m + 1) s1 hc1
      refine ⟨s2, ?_, ?_⟩
      · have : reconnectCycles goodWorld (k + 1)
            = [Label.receiverRound none, Label.managerReconnect goodWorld]
              ++ reconnectCycles goodWorld k := rfl
        rw [this, Node.run_append, hs1]
        exact hs2
      · have : m + (k + 1) = m + 1 + k := by omega
        rw [this]
        exact hc2
  have hstart : ∃ s0, Node.run js [Label.start, Label.managerReconnect goodWorld]
      (Node.init (NewClient cfg) 0) = some s0 ∧ s0.Connected 1 := by
    have e0 : ∃ s0, (Node.init (NewClient cfg) 0).step js Label.start = some s0
        ∧ s0.manager = true ∧ s0.receivers = 0 ∧ s0.reporters = 0
        ∧ s0.client.connected = false ∧ s0.client.reconnect = 1 ∧ s0.client.stop = false
        ∧ s0.client.cfg = cfg := by
      have hguard : ¬ ((false || false || decide (reconnectCap ≤ 0)
          || decide (seconds cfg.Agent.HeartbeatInterval ≤ 0)) = true) := by
        simp only [reconnectCap, Bool.or_self, Nat.le_zero_eq, Nat.one_ne_zero, decide_False,
          Bool.false_or, decide_eq_true_eq, not_le]
        exact hhb
      dsimp only [Node.step, Node.init, NewClient]
      rw [if_neg hguard]
      exact ⟨_, rfl, rfl, rfl, rfl, rfl, rfl, rfl, rfl⟩
    obtain ⟨s0, e0, m0, r0, p0, c0, q0, t0, g0⟩ := e0
    obtain ⟨s1, e1, m1, r1, p1, c1, k1, q1, t1, g1⟩ :=
      Node.step_managerReconnect_good js s0 m0 q0 c0 (by rw [g0]; exact hsi)
    refine ⟨s1, ?_, m1, ?_, ?_, c1, k1, q1, ?_, ?_⟩
    · simp only [Node.run, e0, e1]
    · rw [r1, r0]
    · rw [p1, p0]
    · rw [t1, t0]
    · rw [g1, g0]
      exact hsi
  obtain ⟨s0, hs0, hc0⟩ := hstart
  obtain ⟨s1, hs1, hc1⟩ := hcycles k 1 s0 hc0
  refine ⟨s1, ?_, ?_, hc1.2.1, hc1.2.2.2.2.2.2.1, hc1.2.2.2.1⟩
  · have : Label.start :: Label.managerReconnect goodWorld :: reconnectCycles goodWorld k
        = [Label.start, Label.managerReconnect goodWorld] ++ reconnectCycles goodWorld k := rfl
    rw [this, Node.run_append, hs0]
    exact hs1
  · rw [hc1.2.2.1]
    omega

/-- The failing input of C14 with `sampleConfig`, whose periods are 5 and 30 seconds: after
two disconnects, each followed by a reconnect, three reporters run. -/
theorem reporters_grow_witness :
    0 < seconds sampleConfig.Agent.SystemInfoInterval
      ∧ 0 < seconds sampleConfig.Agent.HeartbeatInterval
      ∧ ∃ s, Node.run sampleJson
            (Label.start :: Label.managerReconnect goodWorld :: reconnectCycles goodWorld 2)
            (Node.init (NewClient sampleConfig) 0) = some s
          ∧ s.reporters = 3 ∧ s.receivers = 1 :=
  ⟨by decide, by decide,
   (reporters_grow sampleJson sampleConfig 2 (by decide) (by decide)).imp
     fun _ h => ⟨h.1, h.2.1, h.2.2.1⟩⟩

/-- C15 as stated fails.  The buffer holds one complete frame followed by a tail that is
not a complete frame, because one more byte follows the frame it starts with.  The loop
does not stop after one call: it makes two calls, returns two messages, and leaves the
single byte, not the tail. -/
theorem drain_tail_starting_with_frame :
    IsFrame (ascii "PING" ++ [0, 0, 0, 0] ++ [0, 0, 0, 7])
      ∧ ¬ IsFrame (ascii "PONG" ++ [0, 0, 0, 3] ++ [0, 0, 0, 8] ++ [1, 2, 3] ++ [9])
      ∧ (MessageParser.drain sampleJson 5
            { buffer := [ascii "PING" ++ [0, 0, 0, 0] ++ [0, 0, 0, 7]].flatten
                ++ (ascii "PONG" ++ [0, 0, 0, 3] ++ [0, 0, 0, 8] ++ [1, 2, 3] ++ [9]) }).map
          (fun r => (r.1.length, r.1.map (Option.map Message.Header), r.2.buffer))
        = some (2, [some { Type_ := ascii "PING", Length := 0, Timestamp := 7 },
                    some { Type_ := ascii "PONG", Length := 3, Timestamp := 8 }], [9])
      ∧ (MessageParser.drain sampleJson 1
            { buffer := [ascii "PING" ++ [0, 0, 0, 0] ++ [0, 0, 0, 7]].flatten
                ++ (ascii "PONG" ++ [0, 0, 0, 3] ++ [0, 0, 0, 8] ++ [1, 2, 3] ++ [9]) })
        = none := by
  refine ⟨by decide, by decide, by decide, by decide⟩

end PBM
